import Mathlib

/-!
Shallow embedding of the exchange simulator core (order_book.py,
matching_engine.py, network.py, utils.py, config.py).

Modelling conventions:
* Python floats are modelled as rationals (`ℚ`); `0.05 = 1/20` exactly.
* `random.uniform(-delta/2, delta/2)` slippage draws are supplied by an
  explicit oracle (`slips : List ℚ`), one entry per executed fill.  The
  slippage percentage only scales the distribution the oracle replaces, so
  it does not appear in the model.
* `time.perf_counter()` values are passed in as an explicit `now : ℚ`
  parameter; `time.time_ns()` order timestamps as `ts : ℕ`.
* The UDP multicast feed is modelled as the list of emitted records
  together with the process-global sequence counter; the process-global
  order-id counter is modelled the same way.  Both live in the single
  simulation state `Sim` together with the one `OrderBook` and
  `MatchingEngine` instance of the program.
* The dict-of-deques book (`bids`/`asks`: price -> deque) is flattened to
  one insertion-ordered list per side: the deque at price `p` is the
  subsequence of orders with price `p`, dict-key lookup becomes a min/max
  over the stored prices, and an emptied deque's key disappearing from the
  dict is automatic.  `_add_to_book` keys levels by
  `enforce_tick(order.price)`, and every stored order's price has already
  passed `enforce_tick` (constructor and `edit_order`), which is
  idempotent, so the order's own price is the level key.
* `orders_by_id` is represented by membership in the two side lists: the
  code adds to and removes from the dict and the deques in lockstep
  (`_add_to_book` / `remove_order`), so the dict's contents are exactly the
  resting orders.
-/

namespace Exchange

/-! ### config.py -/

def INITIAL_PRICE : ℚ := 700
def MAX_DAILY_MOVE_PERCENT : ℚ := 10
def BAND_EXPANSION_INCREMENT : ℚ := 5
def TER_PERCENT : ℚ := 5
def CIRCUIT_BREAKER_DURATION : ℚ := 5

/-! ### utils.py -/

/-- Python's built-in `round` on a rational: round half to even. -/
def roundHalfEven (q : ℚ) : ℤ :=
  let n := ⌊q⌋
  let frac := q - n
  if frac < 1/2 then n
  else if 1/2 < frac then n + 1
  else if n % 2 = 0 then n else n + 1

/-- `enforce_tick(price) = round(round(price / 0.05) * 0.05, 2)`.
`round(price / 0.05)` is `roundHalfEven (price * 20)`, and the result
`k * (1/20)` already has exactly two decimals, so the outer 2-decimal
round is the identity on rationals. -/
def enforce_tick (price : ℚ) : ℚ :=
  (roundHalfEven (price * 20) : ℚ) / 20

/-! ### Data model -/

inductive Side where
  | B
  | S
deriving DecidableEq, Repr

/-- `order_book.Order` (the `owner` TCP connection is an opaque handle,
modelled as an optional tag). -/
structure Order where
  id : ℕ
  side : Side
  price : ℚ
  quantity : ℤ
  timestamp_ns : ℕ
  owner : Option ℕ
  active : Bool
deriving DecidableEq, Repr

/-- The six feed record kinds of network.py. -/
inductive MsgType where
  | N
  | T
  | X
  | K
  | E
  | R
deriving DecidableEq, Repr

/-- One emitted feed record.  For order-shaped records (`N,X,K,E,R`),
`oid` is the order id and `oid2` is unused (0); for trade records (`T`),
`oid` is the buy id and `oid2` the sell id. -/
structure FeedMsg where
  seq : ℕ
  kind : MsgType
  oid : ℕ
  oid2 : ℕ
  price : ℚ
  qty : ℤ
deriving DecidableEq, Repr

/-- The whole simulation state: the order book, the matching-engine
fields, the process-global order-id counter of utils.py and the
process-global feed sequence counter plus emitted records of network.py. -/
structure Sim where
  bids : List Order
  asks : List Order
  last_traded_price : ℚ
  daily_open_price : ℚ
  current_band_percent : ℚ
  daily_lower_bound : ℚ
  daily_upper_bound : ℚ
  circuit_active : Bool
  circuit_trigger_time : Option ℚ
  nextOrderId : ℕ
  feedSeq : ℕ
  feed : List FeedMsg
deriving DecidableEq, Repr

/-- Process start state: `MatchingEngine.__init__` with a fresh book,
`itertools.count(1)` id counter and `itertools.count(1)` feed sequence. -/
def Sim.init : Sim where
  bids := []
  asks := []
  last_traded_price := INITIAL_PRICE
  daily_open_price := INITIAL_PRICE
  current_band_percent := MAX_DAILY_MOVE_PERCENT
  daily_lower_bound := INITIAL_PRICE * (1 - MAX_DAILY_MOVE_PERCENT / 100)
  daily_upper_bound := INITIAL_PRICE * (1 + MAX_DAILY_MOVE_PERCENT / 100)
  circuit_active := false
  circuit_trigger_time := none
  nextOrderId := 1
  feedSeq := 1
  feed := []

/-! ### network.py -/

/-- Append one feed record carrying the next global sequence number.
Every `send_*` function packs `enforce_tick(price)` into the record. -/
def emit (s : Sim) (kind : MsgType) (oid oid2 : ℕ) (price : ℚ) (qty : ℤ) : Sim :=
  { s with
    feedSeq := s.feedSeq + 1
    feed := s.feed ++ [⟨s.feedSeq, kind, oid, oid2, enforce_tick price, qty⟩] }

def send_order (s : Sim) (o : Order) : Sim :=
  emit s .N o.id 0 o.price o.quantity

def send_trade (s : Sim) (buyId sellId : ℕ) (price : ℚ) (qty : ℤ) : Sim :=
  emit s .T buyId sellId price qty

def send_cancel (s : Sim) (o : Order) : Sim :=
  emit s .X o.id 0 o.price o.quantity

def send_cancel_ack (s : Sim) (o : Order) : Sim :=
  emit s .K o.id 0 o.price o.quantity

def send_edit_ack (s : Sim) (o : Order) : Sim :=
  emit s .E o.id 0 o.price o.quantity

def send_rejection (s : Sim) (o : Order) : Sim :=
  emit s .R o.id 0 o.price o.quantity

/-! ### OrderBook (order_book.py) -/

/-- Lowest price present on a side (dict-key `min` of `get_best_ask`). -/
def bestAskPrice : List Order → Option ℚ
  | [] => none
  | o :: os =>
    match bestAskPrice os with
    | none => some o.price
    | some m => some (min o.price m)

/-- Highest price present on a side (dict-key `max` of `get_best_bid`). -/
def bestBidPrice : List Order → Option ℚ
  | [] => none
  | o :: os =>
    match bestBidPrice os with
    | none => some o.price
    | some m => some (max o.price m)

/-- `_remove_from_deque`: drop the first order with the given id. -/
def removeFirstById : List Order → ℕ → List Order
  | [], _ => []
  | o :: os, i => if o.id = i then os else o :: removeFirstById os i

/-- Replace the head order of the price level `p` (the first stored order
with that price), mirroring the in-place mutation of `queue[0]`. -/
def updateHeadAtPrice : List Order → ℚ → Order → List Order
  | [], _, _ => []
  | o :: os, p, o' => if o.price = p then o' :: os else o :: updateHeadAtPrice os p o'

/-- `orders_by_id` lookup (the dict's contents are the resting orders). -/
def lookupById (s : Sim) (i : ℕ) : Option Order :=
  (s.bids ++ s.asks).find? (fun o => o.id = i)

/-- `OrderBook._add_to_book`: append to the FIFO of the order's own price
level and register in the lookup. -/
def add_to_book (s : Sim) (o : Order) : Sim :=
  match o.side with
  | .B => { s with bids := s.bids ++ [o] }
  | .S => { s with asks := s.asks ++ [o] }

/-- `OrderBook.add_existing_order`: insert preserving the id, then
broadcast a New-order message. -/
def add_existing_order (s : Sim) (o : Order) : Sim :=
  send_order (add_to_book s o) o

/-- `OrderBook.remove_order`: pop the id from the lookup and from the
price-level queue on the order's own side. -/
def remove_order (s : Sim) (i : ℕ) : Sim :=
  match lookupById s i with
  | none => s
  | some o =>
    match o.side with
    | .B => { s with bids := removeFirstById s.bids i }
    | .S => { s with asks := removeFirstById s.asks i }

/-- `OrderBook.cancel_order`. -/
def cancel_order (s : Sim) (i : ℕ) : Sim × Bool :=
  match lookupById s i with
  | none => (s, false)
  | some o =>
    if o.active = false then (s, false)
    else
      let o' := { o with active := false }
      let s1 := remove_order s i
      let s2 := send_cancel s1 o'
      let s3 := send_cancel_ack s2 o'
      (s3, true)

/-- `OrderBook.edit_order`: remove, apply the optional changes, refresh the
timestamp, reinsert, broadcast an edit-ack. -/
def edit_order (s : Sim) (i : ℕ) (newPrice : Option ℚ) (newQty : Option ℤ)
    (newTs : ℕ) : Sim × Bool :=
  match lookupById s i with
  | none => (s, false)
  | some o =>
    if o.active = false then (s, false)
    else
      let s1 := remove_order s i
      let o1 := match newPrice with
        | none => o
        | some p => { o with price := enforce_tick p }
      let o2 := match newQty with
        | none => o1
        | some q => { o1 with quantity := q }
      let o3 := { o2 with timestamp_ns := newTs }
      let s2 := add_to_book s1 o3
      (send_edit_ack s2 o3, true)

/-! ### MatchingEngine (matching_engine.py) -/

/-- `utils.trigger_circuit_breaker`: activate the breaker and record the
trigger time.  (The `threading.Timer` it also starts fires asynchronously
after `CIRCUIT_BREAKER_DURATION`; that concurrent reset is outside this
sequential model — the in-band expiry check of `process_order` is
modelled below.) -/
def trigger_circuit_breaker (s : Sim) (now : ℚ) : Sim :=
  { s with circuit_active := true, circuit_trigger_time := some now }

/-- `MatchingEngine.expand_daily_band`. -/
def expand_daily_band (s : Sim) : Sim :=
  let b := s.current_band_percent + BAND_EXPANSION_INCREMENT
  { s with
    current_band_percent := b
    daily_lower_bound := s.daily_open_price * (1 - b / 100)
    daily_upper_bound := s.daily_open_price * (1 + b / 100) }

/-- One iteration of the inner BUY matching loop: trade against `resting`,
the head of the best ask level `bp`.  Returns the updated state, the
updated remaining quantity, and whether the resting order was fully
consumed and removed (the Python loop continues) or not (it breaks). -/
def fillStepBuy (s : Sim) (inId : ℕ) (now bp : ℚ) (resting : Order)
    (remaining : ℤ) (slip : ℚ) : Sim × ℤ × Bool :=
  let trade_qty := min remaining resting.quantity
  let trade_price := enforce_tick (bp + slip)
  let resting' := { resting with quantity := resting.quantity - trade_qty }
  let s1 := { s with asks := updateHeadAtPrice s.asks bp resting' }
  let remaining' := remaining - trade_qty
  let s2 := send_trade s1 inId resting.id trade_price trade_qty
  let s3 := { s2 with last_traded_price := trade_price }
  let s4 :=
    if trade_price ≤ s3.daily_lower_bound ∨ trade_price ≥ s3.daily_upper_bound then
      expand_daily_band (trigger_circuit_breaker s3 now)
    else s3
  if resting'.quantity = 0 then
    ({ s4 with asks := removeFirstById s4.asks resting.id }, remaining', true)
  else
    (s4, remaining', false)

/-- One iteration of the inner SELL matching loop against the head of the
best bid level (slippage is subtracted on this side). -/
def fillStepSell (s : Sim) (inId : ℕ) (now bp : ℚ) (resting : Order)
    (remaining : ℤ) (slip : ℚ) : Sim × ℤ × Bool :=
  let trade_qty := min remaining resting.quantity
  let trade_price := enforce_tick (bp - slip)
  let resting' := { resting with quantity := resting.quantity - trade_qty }
  let s1 := { s with bids := updateHeadAtPrice s.bids bp resting' }
  let remaining' := remaining - trade_qty
  let s2 := send_trade s1 resting.id inId trade_price trade_qty
  let s3 := { s2 with last_traded_price := trade_price }
  let s4 :=
    if trade_price ≤ s3.daily_lower_bound ∨ trade_price ≥ s3.daily_upper_bound then
      expand_daily_band (trigger_circuit_breaker s3 now)
    else s3
  if resting'.quantity = 0 then
    ({ s4 with bids := removeFirstById s4.bids resting.id }, remaining', true)
  else
    (s4, remaining', false)

/-- The BUY matching loop of `process_order`, fuelled: each pass either
consumes and removes the head of the best ask level (the book strictly
shrinks) or terminates, so `asks.length + 1` fuel always suffices; the
fuel-out branch is unreachable when called through `matchBuy`. -/
def matchBuyFuel : ℕ → Sim → ℕ → ℚ → ℚ → ℤ → List ℚ → Sim × ℤ
  | 0, s, _, _, _, remaining, _ => (s, remaining)
  | fuel + 1, s, inId, inPrice, now, remaining, slips =>
    if remaining ≤ 0 then (s, remaining)
    else
      match bestAskPrice s.asks with
      | none => (s, remaining)
      | some bp =>
        if bp > inPrice then (s, remaining)
        else
          match s.asks.find? (fun o => o.price = bp) with
          | none => (s, remaining)
          | some resting =>
            let r := fillStepBuy s inId now bp resting remaining (slips.headD 0)
            if r.2.2 then
              matchBuyFuel fuel r.1 inId inPrice now r.2.1 slips.tail
            else
              (r.1, r.2.1)

/-- The SELL matching loop (symmetric: best bid, stop when below limit). -/
def matchSellFuel : ℕ → Sim → ℕ → ℚ → ℚ → ℤ → List ℚ → Sim × ℤ
  | 0, s, _, _, _, remaining, _ => (s, remaining)
  | fuel + 1, s, inId, inPrice, now, remaining, slips =>
    if remaining ≤ 0 then (s, remaining)
    else
      match bestBidPrice s.bids with
      | none => (s, remaining)
      | some bp =>
        if bp < inPrice then (s, remaining)
        else
          match s.bids.find? (fun o => o.price = bp) with
          | none => (s, remaining)
          | some resting =>
            let r := fillStepSell s inId now bp resting remaining (slips.headD 0)
            if r.2.2 then
              matchSellFuel fuel r.1 inId inPrice now r.2.1 slips.tail
            else
              (r.1, r.2.1)

def matchBuy (s : Sim) (inId : ℕ) (inPrice now : ℚ) (remaining : ℤ)
    (slips : List ℚ) : Sim × ℤ :=
  matchBuyFuel (s.asks.length + 1) s inId inPrice now remaining slips

def matchSell (s : Sim) (inId : ℕ) (inPrice now : ℚ) (remaining : ℤ)
    (slips : List ℚ) : Sim × ℤ :=
  matchSellFuel (s.bids.length + 1) s inId inPrice now remaining slips

/-- The daily-band clamp of `process_order` step 3 (the reassignment of
`limit_price` against `daily_lower_bound` / `daily_upper_bound`). -/
def clampPrice (s : Sim) (p : ℚ) : ℚ :=
  if p < s.daily_lower_bound then s.daily_lower_bound
  else if p > s.daily_upper_bound then s.daily_upper_bound
  else p

/-- `ter_low = open * (1 - TER_PERCENT/100)` of `process_order` step 4. -/
def terLow (s : Sim) : ℚ := s.daily_open_price * (1 - TER_PERCENT / 100)

/-- `ter_high = open * (1 + TER_PERCENT/100)` of `process_order` step 4. -/
def terHigh (s : Sim) : ℚ := s.daily_open_price * (1 + TER_PERCENT / 100)

/-- Steps 2-6 of `process_order`, after the circuit-breaker gate:
broadcast `N`, clamp to the daily band, TER gate, match, re-add residual. -/
def processAfterCircuit (s : Sim) (incoming : Order) (side : Side)
    (limit_price : ℚ) (quantity : ℤ) (now : ℚ) (slips : List ℚ) :
    Sim × Option Order :=
  let s1 := send_order s incoming
  let clamped := clampPrice s1 limit_price
  let incoming1 := { incoming with price := enforce_tick clamped }
  if clamped < terLow s1 ∨ clamped > terHigh s1 then
    (send_rejection s1 incoming1, none)
  else
    let r :=
      match side with
      | .B => matchBuy s1 incoming1.id incoming1.price now quantity slips
      | .S => matchSell s1 incoming1.id incoming1.price now quantity slips
    if r.2 > 0 then
      let residual := { incoming1 with quantity := r.2 }
      (add_existing_order r.1 residual, some residual)
    else
      (r.1, none)

/-- `MatchingEngine.process_order`.  A fresh `Order` (consuming the next
global id) is allocated before any gating.  While the breaker is active
and unexpired the synthetic order is rejected; an expired breaker is
cleared in-band and processing proceeds.  (`circuit_active` with no
recorded trigger time would raise a `TypeError` in Python; that state is
unreachable because the trigger time is always set together with the
flag, and the model returns the state unchanged there.) -/
def process_order (s : Sim) (side : Side) (limit_price : ℚ) (quantity : ℤ)
    (owner : Option ℕ) (now : ℚ) (ts : ℕ) (slips : List ℚ) :
    Sim × Option Order :=
  let incoming : Order :=
    { id := s.nextOrderId, side := side, price := enforce_tick limit_price
      quantity := quantity, timestamp_ns := ts, owner := owner, active := true }
  let s0 := { s with nextOrderId := s.nextOrderId + 1 }
  if s0.circuit_active then
    match s0.circuit_trigger_time with
    | some t =>
      if now - t < CIRCUIT_BREAKER_DURATION then
        (send_rejection s0 incoming, none)
      else
        let s1 := { s0 with circuit_active := false, circuit_trigger_time := none }
        processAfterCircuit s1 incoming side limit_price quantity now slips
    | none => (s0, none)
  else
    processAfterCircuit s0 incoming side limit_price quantity now slips

/-! ### Basic lemmas -/

theorem roundHalfEven_intCast (n : ℤ) : roundHalfEven (n : ℚ) = n := by
  norm_num [roundHalfEven, Int.floor_intCast]

theorem enforce_tick_idem (p : ℚ) : enforce_tick (enforce_tick p) = enforce_tick p := by
  unfold enforce_tick
  rw [div_mul_cancel₀ _ (by norm_num : (20 : ℚ) ≠ 0), roundHalfEven_intCast]

theorem bestAskPrice_ne_none (o : Order) (os : List Order) :
    bestAskPrice (o :: os) ≠ none := by
  unfold bestAskPrice
  cases bestAskPrice os <;> simp

theorem bestAskPrice_eq_none {l : List Order} (h : bestAskPrice l = none) : l = [] := by
  cases l with
  | nil => rfl
  | cons o os => exact absurd h (bestAskPrice_ne_none o os)

theorem bestBidPrice_ne_none (o : Order) (os : List Order) :
    bestBidPrice (o :: os) ≠ none := by
  unfold bestBidPrice
  cases bestBidPrice os <;> simp

theorem bestBidPrice_eq_none {l : List Order} (h : bestBidPrice l = none) : l = [] := by
  cases l with
  | nil => rfl
  | cons o os => exact absurd h (bestBidPrice_ne_none o os)

theorem bestAskPrice_le :
    ∀ {l : List Order} {m : ℚ}, bestAskPrice l = some m → ∀ o ∈ l, m ≤ o.price
  | [], m, h => by simp [bestAskPrice] at h
  | o :: os, m, h => by
    intro o' ho'
    unfold bestAskPrice at h
    cases h' : bestAskPrice os with
    | none =>
      rw [h'] at h
      obtain rfl : o.price = m := by simpa using h
      have : os = [] := bestAskPrice_eq_none h'
      subst this
      simp at ho'
      simp [ho']
    | some m' =>
      rw [h'] at h
      obtain rfl : min o.price m' = m := by simpa using h
      rcases List.mem_cons.mp ho' with rfl | hmem
      · exact min_le_left _ _
      · exact le_trans (min_le_right _ _) (bestAskPrice_le h' o' hmem)

theorem bestBidPrice_ge :
    ∀ {l : List Order} {m : ℚ}, bestBidPrice l = some m → ∀ o ∈ l, o.price ≤ m
  | [], m, h => by simp [bestBidPrice] at h
  | o :: os, m, h => by
    intro o' ho'
    unfold bestBidPrice at h
    cases h' : bestBidPrice os with
    | none =>
      rw [h'] at h
      obtain rfl : o.price = m := by simpa using h
      have : os = [] := bestBidPrice_eq_none h'
      subst this
      simp at ho'
      simp [ho']
    | some m' =>
      rw [h'] at h
      obtain rfl : max o.price m' = m := by simpa using h
      rcases List.mem_cons.mp ho' with rfl | hmem
      · exact le_max_left _ _
      · exact le_trans (bestBidPrice_ge h' o' hmem) (le_max_right _ _)

theorem bestAskPrice_mem :
    ∀ {l : List Order} {m : ℚ}, bestAskPrice l = some m → ∃ o ∈ l, o.price = m
  | [], m, h => by simp [bestAskPrice] at h
  | o :: os, m, h => by
    unfold bestAskPrice at h
    cases h' : bestAskPrice os with
    | none =>
      rw [h'] at h
      exact ⟨o, List.mem_cons_self o os, by simpa using h⟩
    | some m' =>
      rw [h'] at h
      obtain rfl : min o.price m' = m := by simpa using h
      rcases min_cases o.price m' with ⟨heq, _⟩ | ⟨heq, _⟩
      · exact ⟨o, List.mem_cons_self o os, heq.symm⟩
      · obtain ⟨o', ho', hp⟩ := bestAskPrice_mem h'
        exact ⟨o', List.mem_cons_of_mem o ho', by rw [hp, heq]⟩

theorem bestBidPrice_mem :
    ∀ {l : List Order} {m : ℚ}, bestBidPrice l = some m → ∃ o ∈ l, o.price = m
  | [], m, h => by simp [bestBidPrice] at h
  | o :: os, m, h => by
    unfold bestBidPrice at h
    cases h' : bestBidPrice os with
    | none =>
      rw [h'] at h
      exact ⟨o, List.mem_cons_self o os, by simpa using h⟩
    | some m' =>
      rw [h'] at h
      obtain rfl : max o.price m' = m := by simpa using h
      rcases max_cases o.price m' with ⟨heq, _⟩ | ⟨heq, _⟩
      · exact ⟨o, List.mem_cons_self o os, heq.symm⟩
      · obtain ⟨o', ho', hp⟩ := bestBidPrice_mem h'
        exact ⟨o', List.mem_cons_of_mem o ho', by rw [hp, heq]⟩

theorem removeFirstById_sublist : ∀ (l : List Order) (i : ℕ),
    (removeFirstById l i).Sublist l
  | [], _ => List.Sublist.refl _
  | o :: os, i => by
    unfold removeFirstById
    by_cases h : o.id = i
    · simp only [h, if_true]
      exact List.sublist_cons_self o os
    · simp only [h, if_false]
      exact (removeFirstById_sublist os i).cons₂ o

theorem removeFirstById_length_of_mem :
    ∀ {l : List Order} {i : ℕ}, (∃ o ∈ l, o.id = i) →
      (removeFirstById l i).length + 1 = l.length
  | [], i, h => by simp at h
  | o :: os, i, h => by
    unfold removeFirstById
    by_cases ho : o.id = i
    · simp [ho]
    · simp only [ho, if_false, List.length_cons]
      obtain ⟨o', ho', hid⟩ := h
      rcases List.mem_cons.mp ho' with rfl | hmem
      · exact absurd hid ho
      · rw [removeFirstById_length_of_mem ⟨o', hmem, hid⟩]

theorem updateHeadAtPrice_length (l : List Order) (p : ℚ) (o' : Order) :
    (updateHeadAtPrice l p o').length = l.length := by
  induction l with
  | nil => rfl
  | cons o os ih =>
    unfold updateHeadAtPrice
    by_cases h : o.price = p <;> simp [h, ih]

theorem mem_updateHeadAtPrice :
    ∀ {l : List Order} {p : ℚ} {o' a : Order},
      a ∈ updateHeadAtPrice l p o' → a ∈ l ∨ a = o'
  | [], p, o', a, h => by simp [updateHeadAtPrice] at h
  | o :: os, p, o', a, h => by
    unfold updateHeadAtPrice at h
    by_cases hp : o.price = p
    · simp only [hp, if_true] at h
      rcases List.mem_cons.mp h with rfl | hmem
      · exact Or.inr rfl
      · exact Or.inl (List.mem_cons_of_mem o hmem)
    · simp only [hp, if_false] at h
      rcases List.mem_cons.mp h with rfl | hmem
      · exact Or.inl (List.mem_cons_self _ _)
      · rcases mem_updateHeadAtPrice hmem with h' | h'
        · exact Or.inl (List.mem_cons_of_mem o h')
        · exact Or.inr h'

/-- The first order at price `p` (as returned by `find?`) decomposes the
list, and `updateHeadAtPrice` replaces exactly that order. -/
theorem find?_price_decomp :
    ∀ {l : List Order} {p : ℚ} {resting : Order},
      l.find? (fun o => o.price = p) = some resting →
      ∃ l1 l2, l = l1 ++ resting :: l2 ∧ (∀ o ∈ l1, o.price ≠ p) ∧
        ∀ o', updateHeadAtPrice l p o' = l1 ++ o' :: l2
  | [], p, resting, h => by simp at h
  | o :: os, p, resting, h => by
    rw [List.find?_cons] at h
    by_cases hp : o.price = p
    · simp only [hp, decide_eq_true_eq, hp] at h
      obtain rfl : o = resting := by simpa using h
      refine ⟨[], os, by simp, by simp, fun o' => ?_⟩
      unfold updateHeadAtPrice
      simp [hp]
    · simp only [hp, decide_eq_true_eq, hp] at h
      obtain ⟨l1, l2, heq, hne, hupd⟩ := find?_price_decomp h
      refine ⟨o :: l1, l2, by simp [heq], ?_, fun o' => ?_⟩
      · intro o'' ho''
        rcases List.mem_cons.mp ho'' with rfl | hmem
        · exact hp
        · exact hne o'' hmem
      · unfold updateHeadAtPrice
        simp [hp, hupd o']

/-! ### Feed sequencing -/

/-- The feed invariant: the emitted records carry the gapless sequence
`1, 2, …, n` and the global counter stands at `n + 1`. -/
def feedOk (s : Sim) : Prop :=
  s.feed.map (fun m => m.seq) = List.range' 1 s.feed.length ∧
    s.feedSeq = s.feed.length + 1

theorem feedOk_emit {s : Sim} (h : feedOk s) (k : MsgType) (oid oid2 : ℕ)
    (p : ℚ) (q : ℤ) : feedOk (emit s k oid oid2 p q) := by
  obtain ⟨h1, h2⟩ := h
  constructor
  · simp only [emit, List.map_append, List.length_append, List.map_cons,
      List.map_nil, List.length_cons, List.length_nil]
    rw [h1, h2, List.range'_1_concat]
    simp [Nat.add_comm]
  · simp [emit, h2]

/-! ### Fill-step projections -/

theorem fillStepBuy_feed (s : Sim) (inId : ℕ) (now bp : ℚ) (resting : Order)
    (remaining : ℤ) (slip : ℚ) :
    (fillStepBuy s inId now bp resting remaining slip).1.feed =
      s.feed ++ [⟨s.feedSeq, .T, inId, resting.id,
        enforce_tick (enforce_tick (bp + slip)), min remaining resting.quantity⟩] := by
  simp only [fillStepBuy, send_trade, emit, expand_daily_band, trigger_circuit_breaker]
  split_ifs <;> rfl

theorem fillStepBuy_feedSeq (s : Sim) (inId : ℕ) (now bp : ℚ) (resting : Order)
    (remaining : ℤ) (slip : ℚ) :
    (fillStepBuy s inId now bp resting remaining slip).1.feedSeq = s.feedSeq + 1 := by
  simp only [fillStepBuy, send_trade, emit, expand_daily_band, trigger_circuit_breaker]
  split_ifs <;> rfl

theorem fillStepBuy_bids (s : Sim) (inId : ℕ) (now bp : ℚ) (resting : Order)
    (remaining : ℤ) (slip : ℚ) :
    (fillStepBuy s inId now bp resting remaining slip).1.bids = s.bids := by
  simp only [fillStepBuy, send_trade, emit, expand_daily_band, trigger_circuit_breaker]
  split_ifs <;> rfl

theorem fillStepBuy_nextOrderId (s : Sim) (inId : ℕ) (now bp : ℚ) (resting : Order)
    (remaining : ℤ) (slip : ℚ) :
    (fillStepBuy s inId now bp resting remaining slip).1.nextOrderId = s.nextOrderId := by
  simp only [fillStepBuy, send_trade, emit, expand_daily_band, trigger_circuit_breaker]
  split_ifs <;> rfl

theorem fillStepBuy_open (s : Sim) (inId : ℕ) (now bp : ℚ) (resting : Order)
    (remaining : ℤ) (slip : ℚ) :
    (fillStepBuy s inId now bp resting remaining slip).1.daily_open_price =
      s.daily_open_price := by
  simp only [fillStepBuy, send_trade, emit, expand_daily_band, trigger_circuit_breaker]
  split_ifs <;> rfl

theorem fillStepBuy_remaining (s : Sim) (inId : ℕ) (now bp : ℚ) (resting : Order)
    (remaining : ℤ) (slip : ℚ) :
    (fillStepBuy s inId now bp resting remaining slip).2.1 =
      remaining - min remaining resting.quantity := by
  simp only [fillStepBuy, send_trade, emit, expand_daily_band, trigger_circuit_breaker]
  split_ifs <;> rfl

theorem fillStepBuy_removed (s : Sim) (inId : ℕ) (now bp : ℚ) (resting : Order)
    (remaining : ℤ) (slip : ℚ) :
    (fillStepBuy s inId now bp resting remaining slip).2.2 =
      decide (resting.quantity - min remaining resting.quantity = 0) := by
  simp only [fillStepBuy, send_trade, emit, expand_daily_band, trigger_circuit_breaker]
  split_ifs with h1 h2 <;> simp_all

theorem fillStepBuy_asks (s : Sim) (inId : ℕ) (now bp : ℚ) (resting : Order)
    (remaining : ℤ) (slip : ℚ) :
    (fillStepBuy s inId now bp resting remaining slip).1.asks =
      if resting.quantity - min remaining resting.quantity = 0 then
        removeFirstById
          (updateHeadAtPrice s.asks bp
            { resting with quantity := resting.quantity - min remaining resting.quantity })
          resting.id
      else
        updateHeadAtPrice s.asks bp
          { resting with quantity := resting.quantity - min remaining resting.quantity } := by
  simp only [fillStepBuy, send_trade, emit, expand_daily_band, trigger_circuit_breaker]
  split_ifs <;> simp_all

theorem fillStepSell_feed (s : Sim) (inId : ℕ) (now bp : ℚ) (resting : Order)
    (remaining : ℤ) (slip : ℚ) :
    (fillStepSell s inId now bp resting remaining slip).1.feed =
      s.feed ++ [⟨s.feedSeq, .T, resting.id, inId,
        enforce_tick (enforce_tick (bp - slip)), min remaining resting.quantity⟩] := by
  simp only [fillStepSell, send_trade, emit, expand_daily_band, trigger_circuit_breaker]
  split_ifs <;> rfl

theorem fillStepSell_feedSeq (s : Sim) (inId : ℕ) (now bp : ℚ) (resting : Order)
    (remaining : ℤ) (slip : ℚ) :
    (fillStepSell s inId now bp resting remaining slip).1.feedSeq = s.feedSeq + 1 := by
  simp only [fillStepSell, send_trade, emit, expand_daily_band, trigger_circuit_breaker]
  split_ifs <;> rfl

theorem fillStepSell_asks (s : Sim) (inId : ℕ) (now bp : ℚ) (resting : Order)
    (remaining : ℤ) (slip : ℚ) :
    (fillStepSell s inId now bp resting remaining slip).1.asks = s.asks := by
  simp only [fillStepSell, send_trade, emit, expand_daily_band, trigger_circuit_breaker]
  split_ifs <;> rfl

theorem fillStepSell_nextOrderId (s : Sim) (inId : ℕ) (now bp : ℚ) (resting : Order)
    (remaining : ℤ) (slip : ℚ) :
    (fillStepSell s inId now bp resting remaining slip).1.nextOrderId = s.nextOrderId := by
  simp only [fillStepSell, send_trade, emit, expand_daily_band, trigger_circuit_breaker]
  split_ifs <;> rfl

theorem fillStepSell_open (s : Sim) (inId : ℕ) (now bp : ℚ) (resting : Order)
    (remaining : ℤ) (slip : ℚ) :
    (fillStepSell s inId now bp resting remaining slip).1.daily_open_price =
      s.daily_open_price := by
  simp only [fillStepSell, send_trade, emit, expand_daily_band, trigger_circuit_breaker]
  split_ifs <;> rfl

theorem fillStepSell_remaining (s : Sim) (inId : ℕ) (now bp : ℚ) (resting : Order)
    (remaining : ℤ) (slip : ℚ) :
    (fillStepSell s inId now bp resting remaining slip).2.1 =
      remaining - min remaining resting.quantity := by
  simp only [fillStepSell, send_trade, emit, expand_daily_band, trigger_circuit_breaker]
  split_ifs <;> rfl

theorem fillStepSell_removed (s : Sim) (inId : ℕ) (now bp : ℚ) (resting : Order)
    (remaining : ℤ) (slip : ℚ) :
    (fillStepSell s inId now bp resting remaining slip).2.2 =
      decide (resting.quantity - min remaining resting.quantity = 0) := by
  simp only [fillStepSell, send_trade, emit, expand_daily_band, trigger_circuit_breaker]
  split_ifs with h1 h2 <;> simp_all

theorem fillStepSell_bids (s : Sim) (inId : ℕ) (now bp : ℚ) (resting : Order)
    (remaining : ℤ) (slip : ℚ) :
    (fillStepSell s inId now bp resting remaining slip).1.bids =
      if resting.quantity - min remaining resting.quantity = 0 then
        removeFirstById
          (updateHeadAtPrice s.bids bp
            { resting with quantity := resting.quantity - min remaining resting.quantity })
          resting.id
      else
        updateHeadAtPrice s.bids bp
          { resting with quantity := resting.quantity - min remaining resting.quantity } := by
  simp only [fillStepSell, send_trade, emit, expand_daily_band, trigger_circuit_breaker]
  split_ifs <;> simp_all

/-! ### Matching-loop invariants -/

/-- Loop exits that return the state unchanged satisfy the loop
specification trivially. -/
theorem matchSpec_exit (s : Sim) (remaining : ℤ) (res : Sim × ℤ)
    (h : res = (s, remaining)) :
    ∃ ts : List FeedMsg,
      res.1.feed = s.feed ++ ts ∧
      (∀ m ∈ ts, m.kind = MsgType.T) ∧
      (ts.map fun m => m.qty).sum + res.2 = remaining ∧
      res.1.bids = s.bids ∧
      res.1.nextOrderId = s.nextOrderId ∧
      res.1.daily_open_price = s.daily_open_price ∧
      (∀ a ∈ res.1.asks, ∃ o ∈ s.asks, a.price = o.price) ∧
      (0 ≤ remaining → 0 ≤ res.2) := by
  subst h
  refine ⟨[], by simp, by simp, by simp, rfl, rfl, rfl, ?_, fun h => h⟩
  exact fun a ha => ⟨a, ha, rfl⟩

/-- Behaviour of the BUY matching loop: it appends only trade records to
the feed, conserves quantity (appended trade quantities plus the final
remaining quantity equal the initial remaining quantity), never touches
the bid side, the id counter or the open price, only updates or removes
ask-side orders (so every surviving ask price was already present), and
never drives the remaining quantity negative. -/
theorem matchBuyFuel_spec (inId : ℕ) (inPrice now : ℚ) :
    ∀ (fuel : ℕ) (s : Sim) (remaining : ℤ) (slips : List ℚ),
      ∃ ts : List FeedMsg,
        (matchBuyFuel fuel s inId inPrice now remaining slips).1.feed = s.feed ++ ts ∧
        (∀ m ∈ ts, m.kind = MsgType.T) ∧
        (ts.map fun m => m.qty).sum +
            (matchBuyFuel fuel s inId inPrice now remaining slips).2 = remaining ∧
        (matchBuyFuel fuel s inId inPrice now remaining slips).1.bids = s.bids ∧
        (matchBuyFuel fuel s inId inPrice now remaining slips).1.nextOrderId =
          s.nextOrderId ∧
        (matchBuyFuel fuel s inId inPrice now remaining slips).1.daily_open_price =
          s.daily_open_price ∧
        (∀ a ∈ (matchBuyFuel fuel s inId inPrice now remaining slips).1.asks,
          ∃ o ∈ s.asks, a.price = o.price) ∧
        (0 ≤ remaining → 0 ≤ (matchBuyFuel fuel s inId inPrice now remaining slips).2) := by
  intro fuel
  induction fuel with
  | zero =>
    intro s remaining slips
    exact matchSpec_exit s remaining _ rfl
  | succ fuel ih =>
    intro s remaining slips
    rw [matchBuyFuel]
    by_cases hr : remaining ≤ 0
    · rw [if_pos hr]
      exact matchSpec_exit s remaining _ rfl
    · rw [if_neg hr]
      cases hba : bestAskPrice s.asks with
      | none =>
        exact matchSpec_exit s remaining _ rfl
      | some bp =>
        dsimp only
        by_cases hbp : bp > inPrice
        · rw [if_pos hbp]
          exact matchSpec_exit s remaining _ rfl
        · rw [if_neg hbp]
          cases hfind : s.asks.find? (fun o => o.price = bp) with
          | none =>
            exact matchSpec_exit s remaining _ rfl
          | some resting =>
            dsimp only
            have hresting : resting ∈ s.asks := List.mem_of_find?_eq_some hfind
            set X := fillStepBuy s inId now bp resting remaining (slips.headD 0) with hX
            have hfeed := fillStepBuy_feed s inId now bp resting remaining (slips.headD 0)
            have hbids := fillStepBuy_bids s inId now bp resting remaining (slips.headD 0)
            have hnid := fillStepBuy_nextOrderId s inId now bp resting remaining (slips.headD 0)
            have hopen := fillStepBuy_open s inId now bp resting remaining (slips.headD 0)
            have hrem := fillStepBuy_remaining s inId now bp resting remaining (slips.headD 0)
            have hasks := fillStepBuy_asks s inId now bp resting remaining (slips.headD 0)
            rw [← hX] at hfeed hbids hnid hopen hrem hasks
            have hremnn : 0 ≤ remaining → 0 ≤ X.2.1 := by
              intro h0
              rw [hrem]
              have := min_le_left remaining resting.quantity
              omega
            have hmemasks : ∀ a ∈ X.1.asks, ∃ o ∈ s.asks, a.price = o.price := by
              intro a ha
              rw [hasks] at ha
              have ha' : a ∈ updateHeadAtPrice s.asks bp
                  { resting with quantity := resting.quantity - min remaining resting.quantity } := by
                split_ifs at ha with hz
                · exact (removeFirstById_sublist _ _).mem ha
                · exact ha
              rcases mem_updateHeadAtPrice ha' with h' | h'
              · exact ⟨a, h', rfl⟩
              · refine ⟨resting, hresting, ?_⟩
                rw [h']
            cases hremoved : X.2.2 with
            | true =>
              rw [if_pos rfl]
              obtain ⟨ts', h1, h2, h3, h4, h5, h6, h7, h8⟩ := ih X.1 X.2.1 slips.tail
              refine ⟨⟨s.feedSeq, .T, inId, resting.id,
                  enforce_tick (enforce_tick (bp + slips.headD 0)),
                  min remaining resting.quantity⟩ :: ts', ?_, ?_, ?_, ?_, ?_, ?_, ?_, ?_⟩
              · rw [h1, hfeed]
                simp
              · intro m hm
                rcases List.mem_cons.mp hm with rfl | hm'
                · rfl
                · exact h2 m hm'
              · simp only [List.map_cons, List.sum_cons]
                have := min_le_left remaining resting.quantity
                omega
              · rw [h4, hbids]
              · rw [h5, hnid]
              · rw [h6, hopen]
              · intro a ha
                obtain ⟨o, ho, hp⟩ := h7 a ha
                obtain ⟨o', ho', hp'⟩ := hmemasks o ho
                exact ⟨o', ho', hp.trans hp'⟩
              · intro h0
                exact h8 (hremnn h0)
            | false =>
              rw [if_neg (by simp)]
              refine ⟨[⟨s.feedSeq, .T, inId, resting.id,
                  enforce_tick (enforce_tick (bp + slips.headD 0)),
                  min remaining resting.quantity⟩], ?_, ?_, ?_, ?_, ?_, ?_, ?_, ?_⟩
              · exact hfeed
              · intro m hm
                rcases List.mem_cons.mp hm with rfl | hm'
                · rfl
                · simp at hm'
              · simp only [List.map_cons, List.map_nil, List.sum_cons, List.sum_nil]
                omega
              · exact hbids
              · exact hnid
              · exact hopen
              · exact hmemasks
              · exact hremnn

/-- Loop exit specification for the SELL side. -/
theorem matchSpec_exit_sell (s : Sim) (remaining : ℤ) (res : Sim × ℤ)
    (h : res = (s, remaining)) :
    ∃ ts : List FeedMsg,
      res.1.feed = s.feed ++ ts ∧
      (∀ m ∈ ts, m.kind = MsgType.T) ∧
      (ts.map fun m => m.qty).sum + res.2 = remaining ∧
      res.1.asks = s.asks ∧
      res.1.nextOrderId = s.nextOrderId ∧
      res.1.daily_open_price = s.daily_open_price ∧
      (∀ a ∈ res.1.bids, ∃ o ∈ s.bids, a.price = o.price) ∧
      (0 ≤ remaining → 0 ≤ res.2) := by
  subst h
  refine ⟨[], by simp, by simp, by simp, rfl, rfl, rfl, ?_, fun h => h⟩
  exact fun a ha => ⟨a, ha, rfl⟩

/-- Behaviour of the SELL matching loop, mirror image of
`matchBuyFuel_spec`: only trade records are appended, quantity is
conserved, the ask side, id counter and open price are untouched, every
surviving bid price was already present, and the remaining quantity never
goes negative. -/
theorem matchSellFuel_spec (inId : ℕ) (inPrice now : ℚ) :
    ∀ (fuel : ℕ) (s : Sim) (remaining : ℤ) (slips : List ℚ),
      ∃ ts : List FeedMsg,
        (matchSellFuel fuel s inId inPrice now remaining slips).1.feed = s.feed ++ ts ∧
        (∀ m ∈ ts, m.kind = MsgType.T) ∧
        (ts.map fun m => m.qty).sum +
            (matchSellFuel fuel s inId inPrice now remaining slips).2 = remaining ∧
        (matchSellFuel fuel s inId inPrice now remaining slips).1.asks = s.asks ∧
        (matchSellFuel fuel s inId inPrice now remaining slips).1.nextOrderId =
          s.nextOrderId ∧
        (matchSellFuel fuel s inId inPrice now remaining slips).1.daily_open_price =
          s.daily_open_price ∧
        (∀ a ∈ (matchSellFuel fuel s inId inPrice now remaining slips).1.bids,
          ∃ o ∈ s.bids, a.price = o.price) ∧
        (0 ≤ remaining → 0 ≤ (matchSellFuel fuel s inId inPrice now remaining slips).2) := by
  intro fuel
  induction fuel with
  | zero =>
    intro s remaining slips
    exact matchSpec_exit_sell s remaining _ rfl
  | succ fuel ih =>
    intro s remaining slips
    rw [matchSellFuel]
    by_cases hr : remaining ≤ 0
    · rw [if_pos hr]
      exact matchSpec_exit_sell s remaining _ rfl
    · rw [if_neg hr]
      cases hbb : bestBidPrice s.bids with
      | none =>
        exact matchSpec_exit_sell s remaining _ rfl
      | some bp =>
        dsimp only
        by_cases hbp : bp < inPrice
        · rw [if_pos hbp]
          exact matchSpec_exit_sell s remaining _ rfl
        · rw [if_neg hbp]
          cases hfind : s.bids.find? (fun o => o.price = bp) with
          | none =>
            exact matchSpec_exit_sell s remaining _ rfl
          | some resting =>
            dsimp only
            have hresting : resting ∈ s.bids := List.mem_of_find?_eq_some hfind
            set X := fillStepSell s inId now bp resting remaining (slips.headD 0) with hX
            have hfeed := fillStepSell_feed s inId now bp resting remaining (slips.headD 0)
            have hasksX := fillStepSell_asks s inId now bp resting remaining (slips.headD 0)
            have hnid := fillStepSell_nextOrderId s inId now bp resting remaining (slips.headD 0)
            have hopen := fillStepSell_open s inId now bp resting remaining (slips.headD 0)
            have hrem := fillStepSell_remaining s inId now bp resting remaining (slips.headD 0)
            have hbidsX := fillStepSell_bids s inId now bp resting remaining (slips.headD 0)
            rw [← hX] at hfeed hasksX hnid hopen hrem hbidsX
            have hremnn : 0 ≤ remaining → 0 ≤ X.2.1 := by
              intro h0
              rw [hrem]
              have := min_le_left remaining resting.quantity
              omega
            have hmembids : ∀ a ∈ X.1.bids, ∃ o ∈ s.bids, a.price = o.price := by
              intro a ha
              rw [hbidsX] at ha
              have ha' : a ∈ updateHeadAtPrice s.bids bp
                  { resting with quantity := resting.quantity - min remaining resting.quantity } := by
                split_ifs at ha with hz
                · exact (removeFirstById_sublist _ _).mem ha
                · exact ha
              rcases mem_updateHeadAtPrice ha' with h' | h'
              · exact ⟨a, h', rfl⟩
              · refine ⟨resting, hresting, ?_⟩
                rw [h']
            cases hremoved : X.2.2 with
            | true =>
              rw [if_pos rfl]
              obtain ⟨ts', h1, h2, h3, h4, h5, h6, h7, h8⟩ := ih X.1 X.2.1 slips.tail
              refine ⟨⟨s.feedSeq, .T, resting.id, inId,
                  enforce_tick (enforce_tick (bp - slips.headD 0)),
                  min remaining resting.quantity⟩ :: ts', ?_, ?_, ?_, ?_, ?_, ?_, ?_, ?_⟩
              · rw [h1, hfeed]
                simp
              · intro m hm
                rcases List.mem_cons.mp hm with rfl | hm'
                · rfl
                · exact h2 m hm'
              · simp only [List.map_cons, List.sum_cons]
                have := min_le_left remaining resting.quantity
                omega
              · rw [h4, hasksX]
              · rw [h5, hnid]
              · rw [h6, hopen]
              · intro a ha
                obtain ⟨o, ho, hp⟩ := h7 a ha
                obtain ⟨o', ho', hp'⟩ := hmembids o ho
                exact ⟨o', ho', hp.trans hp'⟩
              · intro h0
                exact h8 (hremnn h0)
            | false =>
              rw [if_neg (by simp)]
              refine ⟨[⟨s.feedSeq, .T, resting.id, inId,
                  enforce_tick (enforce_tick (bp - slips.headD 0)),
                  min remaining resting.quantity⟩], ?_, ?_, ?_, ?_, ?_, ?_, ?_, ?_⟩
              · exact hfeed
              · intro m hm
                rcases List.mem_cons.mp hm with rfl | hm'
                · rfl
                · simp at hm'
              · simp only [List.map_cons, List.map_nil, List.sum_cons, List.sum_nil]
                omega
              · exact hasksX
              · exact hnid
              · exact hopen
              · exact hmembids
              · exact hremnn

/-- Any state predicate preserved by the buy fill step is preserved by the
whole buy matching loop. -/
theorem matchBuyFuel_preserves (P : Sim → Prop)
    (hP : ∀ s inId now bp resting remaining slip,
      P s → P (fillStepBuy s inId now bp resting remaining slip).1) :
    ∀ (fuel : ℕ) (s : Sim) (inId : ℕ) (inPrice now : ℚ) (remaining : ℤ)
      (slips : List ℚ), P s →
      P (matchBuyFuel fuel s inId inPrice now remaining slips).1 := by
  intro fuel
  induction fuel with
  | zero => intro s inId inPrice now remaining slips h; exact h
  | succ fuel ih =>
    intro s inId inPrice now remaining slips h
    rw [matchBuyFuel]
    by_cases hr : remaining ≤ 0
    · rw [if_pos hr]; exact h
    · rw [if_neg hr]
      cases hba : bestAskPrice s.asks with
      | none => exact h
      | some bp =>
        dsimp only
        by_cases hbp : bp > inPrice
        · rw [if_pos hbp]; exact h
        · rw [if_neg hbp]
          cases hfind : s.asks.find? (fun o => o.price = bp) with
          | none => exact h
          | some resting =>
            dsimp only
            cases hremoved : (fillStepBuy s inId now bp resting remaining (slips.headD 0)).2.2 with
            | true =>
              rw [if_pos rfl]
              exact ih _ _ _ _ _ _ (hP s inId now bp resting remaining (slips.headD 0) h)
            | false =>
              rw [if_neg (by simp)]
              exact hP s inId now bp resting remaining (slips.headD 0) h

/-- Any state predicate preserved by the sell fill step is preserved by
the whole sell matching loop. -/
theorem matchSellFuel_preserves (P : Sim → Prop)
    (hP : ∀ s inId now bp resting remaining slip,
      P s → P (fillStepSell s inId now bp resting remaining slip).1) :
    ∀ (fuel : ℕ) (s : Sim) (inId : ℕ) (inPrice now : ℚ) (remaining : ℤ)
      (slips : List ℚ), P s →
      P (matchSellFuel fuel s inId inPrice now remaining slips).1 := by
  intro fuel
  induction fuel with
  | zero => intro s inId inPrice now remaining slips h; exact h
  | succ fuel ih =>
    intro s inId inPrice now remaining slips h
    rw [matchSellFuel]
    by_cases hr : remaining ≤ 0
    · rw [if_pos hr]; exact h
    · rw [if_neg hr]
      cases hbb : bestBidPrice s.bids with
      | none => exact h
      | some bp =>
        dsimp only
        by_cases hbp : bp < inPrice
        · rw [if_pos hbp]; exact h
        · rw [if_neg hbp]
          cases hfind : s.bids.find? (fun o => o.price = bp) with
          | none => exact h
          | some resting =>
            dsimp only
            cases hremoved : (fillStepSell s inId now bp resting remaining (slips.headD 0)).2.2 with
            | true =>
              rw [if_pos rfl]
              exact ih _ _ _ _ _ _ (hP s inId now bp resting remaining (slips.headD 0) h)
            | false =>
              rw [if_neg (by simp)]
              exact hP s inId now bp resting remaining (slips.headD 0) h

/-- If the buy loop stops with quantity still remaining (given enough
fuel, which `matchBuy` always supplies), every surviving ask is strictly
above the incoming limit price: the loop only stops on an empty ask side,
an ask above the limit, or a fully exhausted incoming quantity. -/
theorem matchBuyFuel_residual (inId : ℕ) (inPrice now : ℚ) :
    ∀ (fuel : ℕ) (s : Sim) (remaining : ℤ) (slips : List ℚ),
      s.asks.length < fuel →
      0 < (matchBuyFuel fuel s inId inPrice now remaining slips).2 →
      ∀ a ∈ (matchBuyFuel fuel s inId inPrice now remaining slips).1.asks,
        inPrice < a.price := by
  intro fuel
  induction fuel with
  | zero =>
    intro s remaining slips hlen
    exact absurd hlen (Nat.not_lt_zero _)
  | succ fuel ih =>
    intro s remaining slips hlen hres
    rw [matchBuyFuel] at hres ⊢
    by_cases hr : remaining ≤ 0
    · rw [if_pos hr] at hres
      exact absurd hres (by omega)
    · rw [if_neg hr] at hres ⊢
      cases hba : bestAskPrice s.asks with
      | none =>
        have : s.asks = [] := bestAskPrice_eq_none hba
        intro a ha
        rw [this] at ha
        simp at ha
      | some bp =>
        rw [hba] at hres
        dsimp only at hres ⊢
        by_cases hbp : bp > inPrice
        · rw [if_pos hbp] at hres ⊢
          intro a ha
          exact lt_of_lt_of_le hbp (bestAskPrice_le hba a ha)
        · rw [if_neg hbp] at hres ⊢
          cases hfind : s.asks.find? (fun o => o.price = bp) with
          | none =>
            obtain ⟨o, ho, hp⟩ := bestAskPrice_mem hba
            have := List.find?_eq_none.mp hfind o ho
            simp [hp] at this
          | some resting =>
            rw [hfind] at hres
            dsimp only at hres ⊢
            cases hremoved : (fillStepBuy s inId now bp resting remaining (slips.headD 0)).2.2 with
            | true =>
              rw [hremoved] at hres
              rw [if_pos rfl] at hres ⊢
              have hrem := fillStepBuy_remaining s inId now bp resting remaining (slips.headD 0)
              have hasks := fillStepBuy_asks s inId now bp resting remaining (slips.headD 0)
              have hz : resting.quantity - min remaining resting.quantity = 0 := by
                have := fillStepBuy_removed s inId now bp resting remaining (slips.headD 0)
                rw [hremoved] at this
                exact of_decide_eq_true this.symm
              have hlen' :
                  (fillStepBuy s inId now bp resting remaining (slips.headD 0)).1.asks.length <
                    fuel := by
                rw [hasks, if_pos hz]
                obtain ⟨l1, l2, hdecomp, hne, hupd⟩ := find?_price_decomp hfind
                have hmem : ({ resting with
                    quantity := resting.quantity - min remaining resting.quantity } : Order) ∈
                    updateHeadAtPrice s.asks bp
                      { resting with quantity := resting.quantity - min remaining resting.quantity } := by
                  rw [hupd]
                  simp
                have hrlen := removeFirstById_length_of_mem
                  (l := updateHeadAtPrice s.asks bp
                    { resting with quantity := resting.quantity - min remaining resting.quantity })
                  (i := resting.id) ⟨_, hmem, rfl⟩
                have hulen := updateHeadAtPrice_length s.asks bp
                  { resting with quantity := resting.quantity - min remaining resting.quantity }
                omega
              exact ih _ _ slips.tail hlen' hres
            | false =>
              rw [hremoved] at hres
              rw [if_neg (by simp)] at hres ⊢
              have hrem := fillStepBuy_remaining s inId now bp resting remaining (slips.headD 0)
              have hnz : ¬ resting.quantity - min remaining resting.quantity = 0 := by
                have := fillStepBuy_removed s inId now bp resting remaining (slips.headD 0)
                rw [hremoved] at this
                exact of_decide_eq_false this.symm
              rcases min_choice remaining resting.quantity with h | h
              · rw [h] at hrem
                exact absurd hres (by omega)
              · rw [h] at hnz
                omega

/-- Sell-side mirror of `matchBuyFuel_residual`: if quantity remains,
every surviving bid is strictly below the incoming limit price. -/
theorem matchSellFuel_residual (inId : ℕ) (inPrice now : ℚ) :
    ∀ (fuel : ℕ) (s : Sim) (remaining : ℤ) (slips : List ℚ),
      s.bids.length < fuel →
      0 < (matchSellFuel fuel s inId inPrice now remaining slips).2 →
      ∀ a ∈ (matchSellFuel fuel s inId inPrice now remaining slips).1.bids,
        a.price < inPrice := by
  intro fuel
  induction fuel with
  | zero =>
    intro s remaining slips hlen
    exact absurd hlen (Nat.not_lt_zero _)
  | succ fuel ih =>
    intro s remaining slips hlen hres
    rw [matchSellFuel] at hres ⊢
    by_cases hr : remaining ≤ 0
    · rw [if_pos hr] at hres
      exact absurd hres (by omega)
    · rw [if_neg hr] at hres ⊢
      cases hbb : bestBidPrice s.bids with
      | none =>
        have : s.bids = [] := bestBidPrice_eq_none hbb
        intro a ha
        rw [this] at ha
        simp at ha
      | some bp =>
        rw [hbb] at hres
        dsimp only at hres ⊢
        by_cases hbp : bp < inPrice
        · rw [if_pos hbp] at hres ⊢
          intro a ha
          exact lt_of_le_of_lt (bestBidPrice_ge hbb a ha) hbp
        · rw [if_neg hbp] at hres ⊢
          cases hfind : s.bids.find? (fun o => o.price = bp) with
          | none =>
            obtain ⟨o, ho, hp⟩ := bestBidPrice_mem hbb
            have := List.find?_eq_none.mp hfind o ho
            simp [hp] at this
          | some resting =>
            rw [hfind] at hres
            dsimp only at hres ⊢
            cases hremoved : (fillStepSell s inId now bp resting remaining (slips.headD 0)).2.2 with
            | true =>
              rw [hremoved] at hres
              rw [if_pos rfl] at hres ⊢
              have hrem := fillStepSell_remaining s inId now bp resting remaining (slips.headD 0)
              have hbids := fillStepSell_bids s inId now bp resting remaining (slips.headD 0)
              have hz : resting.quantity - min remaining resting.quantity = 0 := by
                have := fillStepSell_removed s inId now bp resting remaining (slips.headD 0)
                rw [hremoved] at this
                exact of_decide_eq_true this.symm
              have hlen' :
                  (fillStepSell s inId now bp resting remaining (slips.headD 0)).1.bids.length <
                    fuel := by
                rw [hbids, if_pos hz]
                obtain ⟨l1, l2, hdecomp, hne, hupd⟩ := find?_price_decomp hfind
                have hmem : ({ resting with
                    quantity := resting.quantity - min remaining resting.quantity } : Order) ∈
                    updateHeadAtPrice s.bids bp
                      { resting with quantity := resting.quantity - min remaining resting.quantity } := by
                  rw [hupd]
                  simp
                have hrlen := removeFirstById_length_of_mem
                  (l := updateHeadAtPrice s.bids bp
                    { resting with quantity := resting.quantity - min remaining resting.quantity })
                  (i := resting.id) ⟨_, hmem, rfl⟩
                have hulen := updateHeadAtPrice_length s.bids bp
                  { resting with quantity := resting.quantity - min remaining resting.quantity }
                omega
              exact ih _ _ slips.tail hlen' hres
            | false =>
              rw [hremoved] at hres
              rw [if_neg (by simp)] at hres ⊢
              have hrem := fillStepSell_remaining s inId now bp resting remaining (slips.headD 0)
              have hnz : ¬ resting.quantity - min remaining resting.quantity = 0 := by
                have := fillStepSell_removed s inId now bp resting remaining (slips.headD 0)
                rw [hremoved] at this
                exact of_decide_eq_false this.symm
              rcases min_choice remaining resting.quantity with h | h
              · rw [h] at hrem
                exact absurd hres (by omega)
              · rw [h] at hnz
                omega

/-- Appending one record carrying the current counter value and bumping
the counter preserves the feed invariant. -/
theorem feedOk_extend {s t : Sim} (h : feedOk s) (m : FeedMsg)
    (hm : m.seq = s.feedSeq) (hfeed : t.feed = s.feed ++ [m])
    (hseq : t.feedSeq = s.feedSeq + 1) : feedOk t := by
  obtain ⟨h1, h2⟩ := h
  constructor
  · rw [hfeed]
    simp only [List.map_append, List.length_append, List.map_cons, List.map_nil,
      List.length_cons, List.length_nil]
    rw [h1, hm, h2, List.range'_1_concat]
    simp [Nat.add_comm]
  · rw [hseq, hfeed, h2]
    simp

theorem feedOk_fillStepBuy (s : Sim) (inId : ℕ) (now bp : ℚ) (resting : Order)
    (remaining : ℤ) (slip : ℚ) (h : feedOk s) :
    feedOk (fillStepBuy s inId now bp resting remaining slip).1 :=
  feedOk_extend h _ rfl (fillStepBuy_feed s inId now bp resting remaining slip)
    (fillStepBuy_feedSeq s inId now bp resting remaining slip)

theorem feedOk_fillStepSell (s : Sim) (inId : ℕ) (now bp : ℚ) (resting : Order)
    (remaining : ℤ) (slip : ℚ) (h : feedOk s) :
    feedOk (fillStepSell s inId now bp resting remaining slip).1 :=
  feedOk_extend h _ rfl (fillStepSell_feed s inId now bp resting remaining slip)
    (fillStepSell_feedSeq s inId now bp resting remaining slip)

theorem add_to_book_feed (s : Sim) (o : Order) : (add_to_book s o).feed = s.feed := by
  cases h : o.side <;> simp [add_to_book, h]

theorem add_to_book_feedSeq (s : Sim) (o : Order) :
    (add_to_book s o).feedSeq = s.feedSeq := by
  cases h : o.side <;> simp [add_to_book, h]

theorem feedOk_add_to_book (s : Sim) (o : Order) (h : feedOk s) :
    feedOk (add_to_book s o) := by
  obtain ⟨h1, h2⟩ := h
  constructor
  · rw [add_to_book_feed]
    exact h1
  · rw [add_to_book_feedSeq, add_to_book_feed]
    exact h2

theorem remove_order_feed (s : Sim) (i : ℕ) : (remove_order s i).feed = s.feed := by
  unfold remove_order
  split
  · rfl
  · split <;> rfl

theorem remove_order_feedSeq (s : Sim) (i : ℕ) :
    (remove_order s i).feedSeq = s.feedSeq := by
  unfold remove_order
  split
  · rfl
  · split <;> rfl

theorem feedOk_remove_order (s : Sim) (i : ℕ) (h : feedOk s) :
    feedOk (remove_order s i) := by
  obtain ⟨h1, h2⟩ := h
  constructor
  · rw [remove_order_feed]
    exact h1
  · rw [remove_order_feedSeq, remove_order_feed]
    exact h2

theorem feedOk_cancel_order (s : Sim) (i : ℕ) (h : feedOk s) :
    feedOk (cancel_order s i).1 := by
  unfold cancel_order
  cases lookupById s i with
  | none => exact h
  | some o =>
    dsimp only
    by_cases ha : o.active = false
    · rw [if_pos ha]
      exact h
    · rw [if_neg ha]
      exact feedOk_emit (feedOk_emit (feedOk_remove_order s i h) _ _ _ _ _) _ _ _ _ _

theorem feedOk_edit_order (s : Sim) (i : ℕ) (newPrice : Option ℚ)
    (newQty : Option ℤ) (newTs : ℕ) (h : feedOk s) :
    feedOk (edit_order s i newPrice newQty newTs).1 := by
  unfold edit_order
  cases lookupById s i with
  | none => exact h
  | some o =>
    dsimp only
    by_cases ha : o.active = false
    · rw [if_pos ha]
      exact h
    · rw [if_neg ha]
      exact feedOk_emit (feedOk_add_to_book _ _ (feedOk_remove_order s i h)) _ _ _ _ _

theorem feedOk_processAfterCircuit (s : Sim) (incoming : Order) (side : Side)
    (limit_price : ℚ) (quantity : ℤ) (now : ℚ) (slips : List ℚ) (h : feedOk s) :
    feedOk (processAfterCircuit s incoming side limit_price quantity now slips).1 := by
  have h1 : feedOk (send_order s incoming) := feedOk_emit h _ _ _ _ _
  unfold processAfterCircuit
  dsimp only
  split_ifs
  all_goals
    first
      | exact feedOk_emit h1 _ _ _ _ _
      | (refine feedOk_emit (feedOk_add_to_book _ _ ?_) _ _ _ _ _
         cases side with
         | B => exact matchBuyFuel_preserves feedOk feedOk_fillStepBuy _ _ _ _ _ _ _ h1
         | S => exact matchSellFuel_preserves feedOk feedOk_fillStepSell _ _ _ _ _ _ _ h1)
      | (cases side with
         | B => exact matchBuyFuel_preserves feedOk feedOk_fillStepBuy _ _ _ _ _ _ _ h1
         | S => exact matchSellFuel_preserves feedOk feedOk_fillStepSell _ _ _ _ _ _ _ h1)

theorem feedOk_process_order (s : Sim) (side : Side) (limit_price : ℚ)
    (quantity : ℤ) (owner : Option ℕ) (now : ℚ) (ts : ℕ) (slips : List ℚ)
    (h : feedOk s) :
    feedOk (process_order s side limit_price quantity owner now ts slips).1 := by
  have hs0 : feedOk { s with nextOrderId := s.nextOrderId + 1 } := h
  unfold process_order
  dsimp only
  split_ifs with hcirc
  · cases htr : s.circuit_trigger_time with
    | none => exact hs0
    | some t =>
      dsimp only
      split_ifs with hage
      · exact feedOk_emit hs0 _ _ _ _ _
      · exact feedOk_processAfterCircuit _ _ _ _ _ _ _ hs0
  · exact feedOk_processAfterCircuit _ _ _ _ _ _ _ hs0

/-! ### Crossed-book analysis -/

/-- The no-crossed-book property: every resting bid is strictly below
every resting ask. -/
def uncrossed (s : Sim) : Prop :=
  ∀ b ∈ s.bids, ∀ a ∈ s.asks, b.price < a.price

theorem remove_order_bids_sublist (s : Sim) (i : ℕ) :
    (remove_order s i).bids.Sublist s.bids := by
  unfold remove_order
  split
  · exact List.Sublist.refl _
  · split
    · exact removeFirstById_sublist _ _
    · exact List.Sublist.refl _

theorem remove_order_asks_sublist (s : Sim) (i : ℕ) :
    (remove_order s i).asks.Sublist s.asks := by
  unfold remove_order
  split
  · exact List.Sublist.refl _
  · split
    · exact List.Sublist.refl _
    · exact removeFirstById_sublist _ _

/-- Inserting a bid below every resting ask keeps the book uncrossed. -/
theorem uncrossed_add_existing_B (t : Sim) (o : Order) (hside : o.side = Side.B)
    (h : ∀ b ∈ t.bids, ∀ a ∈ t.asks, b.price < a.price)
    (ho : ∀ a ∈ t.asks, o.price < a.price) :
    uncrossed (add_existing_order t o) := by
  intro b hb a ha
  have hb' : b ∈ t.bids ++ [o] := by
    simpa [add_existing_order, send_order, emit, add_to_book, hside] using hb
  have ha' : a ∈ t.asks := by
    simpa [add_existing_order, send_order, emit, add_to_book, hside] using ha
  rcases List.mem_append.mp hb' with hbo | hbo
  · exact h b hbo a ha'
  · obtain rfl : b = o := by simpa using hbo
    exact ho a ha'

/-- Inserting an ask above every resting bid keeps the book uncrossed. -/
theorem uncrossed_add_existing_S (t : Sim) (o : Order) (hside : o.side = Side.S)
    (h : ∀ b ∈ t.bids, ∀ a ∈ t.asks, b.price < a.price)
    (ho : ∀ b ∈ t.bids, b.price < o.price) :
    uncrossed (add_existing_order t o) := by
  intro b hb a ha
  have hb' : b ∈ t.bids := by
    simpa [add_existing_order, send_order, emit, add_to_book, hside] using hb
  have ha' : a ∈ t.asks ++ [o] := by
    simpa [add_existing_order, send_order, emit, add_to_book, hside] using ha
  rcases List.mem_append.mp ha' with hao | hao
  · exact h b hb' a hao
  · obtain rfl : a = o := by simpa using hao
    exact ho b hb'

/-- Post-circuit submission processing preserves the uncrossed book:
matching only removes or shrinks opposite-side orders, and a residual is
only reinserted when every surviving opposite order is strictly beyond
its limit price. -/
theorem uncrossed_processAfterCircuit (s : Sim) (incoming : Order) (side : Side)
    (limit_price : ℚ) (quantity : ℤ) (now : ℚ) (slips : List ℚ)
    (hside : incoming.side = side) (h : uncrossed s) :
    uncrossed (processAfterCircuit s incoming side limit_price quantity now slips).1 := by
  unfold processAfterCircuit
  dsimp only
  generalize clampPrice (send_order s incoming) limit_price = c
  split_ifs with hter hres
  · exact fun b hb a ha => h b hb a ha
  · cases side with
    | B =>
      simp only [matchBuy] at hres ⊢
      obtain ⟨ts, hfeed, hkinds, hsum, hbids, hnid, hopen, hmem, hnn⟩ :=
        matchBuyFuel_spec incoming.id (enforce_tick c) now
          ((send_order s incoming).asks.length + 1) (send_order s incoming) quantity slips
      refine uncrossed_add_existing_B _ _ ?_ ?_ ?_
      · exact hside
      · intro b hb a ha
        rw [hbids] at hb
        obtain ⟨o, ho, hp⟩ := hmem a ha
        rw [hp]
        exact h b hb o ho
      · intro a ha
        exact matchBuyFuel_residual incoming.id (enforce_tick c) now
          ((send_order s incoming).asks.length + 1) (send_order s incoming) quantity slips
          (Nat.lt_succ_self _) hres a ha
    | S =>
      simp only [matchSell] at hres ⊢
      obtain ⟨ts, hfeed, hkinds, hsum, hasks, hnid, hopen, hmem, hnn⟩ :=
        matchSellFuel_spec incoming.id (enforce_tick c) now
          ((send_order s incoming).bids.length + 1) (send_order s incoming) quantity slips
      refine uncrossed_add_existing_S _ _ ?_ ?_ ?_
      · exact hside
      · intro b hb a ha
        rw [hasks] at ha
        obtain ⟨o, ho, hp⟩ := hmem b hb
        rw [hp]
        exact h o ho a ha
      · intro b hb
        exact matchSellFuel_residual incoming.id (enforce_tick c) now
          ((send_order s incoming).bids.length + 1) (send_order s incoming) quantity slips
          (Nat.lt_succ_self _) hres b hb
  · cases side with
    | B =>
      simp only [matchBuy]
      obtain ⟨ts, hfeed, hkinds, hsum, hbids, hnid, hopen, hmem, hnn⟩ :=
        matchBuyFuel_spec incoming.id (enforce_tick c) now
          ((send_order s incoming).asks.length + 1) (send_order s incoming) quantity slips
      intro b hb a ha
      rw [hbids] at hb
      obtain ⟨o, ho, hp⟩ := hmem a ha
      rw [hp]
      exact h b hb o ho
    | S =>
      simp only [matchSell]
      obtain ⟨ts, hfeed, hkinds, hsum, hasks, hnid, hopen, hmem, hnn⟩ :=
        matchSellFuel_spec incoming.id (enforce_tick c) now
          ((send_order s incoming).bids.length + 1) (send_order s incoming) quantity slips
      intro b hb a ha
      rw [hasks] at ha
      obtain ⟨o, ho, hp⟩ := hmem b hb
      rw [hp]
      exact h o ho a ha

/-- `process_order` preserves the uncrossed book under every gating
outcome. -/
theorem uncrossed_process_order (s : Sim) (side : Side) (limit_price : ℚ)
    (quantity : ℤ) (owner : Option ℕ) (now : ℚ) (ts : ℕ) (slips : List ℚ)
    (h : uncrossed s) :
    uncrossed (process_order s side limit_price quantity owner now ts slips).1 := by
  unfold process_order
  dsimp only
  split_ifs with hcirc
  · cases htr : s.circuit_trigger_time with
    | none => exact fun b hb a ha => h b hb a ha
    | some t =>
      dsimp only
      split_ifs with hage
      · exact fun b hb a ha => h b hb a ha
      · exact uncrossed_processAfterCircuit _ _ _ _ _ _ _ rfl h
  · exact uncrossed_processAfterCircuit _ _ _ _ _ _ _ rfl h

/-- `cancel_order` preserves the uncrossed book: it only removes. -/
theorem uncrossed_cancel_order (s : Sim) (i : ℕ) (h : uncrossed s) :
    uncrossed (cancel_order s i).1 := by
  unfold cancel_order
  cases hl : lookupById s i with
  | none => exact h
  | some o =>
    dsimp only
    split_ifs with ha
    · exact h
    · intro b hb a ha'
      have hb' : b ∈ s.bids := (remove_order_bids_sublist s i).mem hb
      have ha'' : a ∈ s.asks := (remove_order_asks_sublist s i).mem ha'
      exact h b hb' a ha''

/-! ### process_order characterization -/

theorem clampPrice_send_order (s : Sim) (o : Order) (p : ℚ) :
    clampPrice (send_order s o) p = clampPrice s p := rfl

theorem terLow_send_order (s : Sim) (o : Order) :
    terLow (send_order s o) = terLow s := rfl

theorem terHigh_send_order (s : Sim) (o : Order) :
    terHigh (send_order s o) = terHigh s := rfl

/-- With the breaker inactive, `process_order` allocates the next id and
goes straight to the post-circuit pipeline. -/
theorem process_order_circuitFalse (s : Sim) (side : Side) (limit_price : ℚ)
    (quantity : ℤ) (owner : Option ℕ) (now : ℚ) (ts : ℕ) (slips : List ℚ)
    (hcirc : s.circuit_active = false) :
    process_order s side limit_price quantity owner now ts slips =
      processAfterCircuit { s with nextOrderId := s.nextOrderId + 1 }
        { id := s.nextOrderId, side := side, price := enforce_tick limit_price
          quantity := quantity, timestamp_ns := ts, owner := owner, active := true }
        side limit_price quantity now slips := by
  unfold process_order
  dsimp only
  rw [if_neg (by simp [hcirc])]

/-- The TER-reject branch of the post-circuit pipeline: the order (with
the quantised clamped price) is rejected after the ingress `N`. -/
theorem processAfterCircuit_ter_reject (s : Sim) (incoming : Order) (side : Side)
    (limit_price : ℚ) (quantity : ℤ) (now : ℚ) (slips : List ℚ)
    (hter : clampPrice s limit_price < terLow s ∨ clampPrice s limit_price > terHigh s) :
    processAfterCircuit s incoming side limit_price quantity now slips =
      (send_rejection (send_order s incoming)
        { incoming with price := enforce_tick (clampPrice s limit_price) }, none) := by
  unfold processAfterCircuit
  dsimp only
  rw [clampPrice_send_order, terLow_send_order, terHigh_send_order, if_pos hter]

/-- The accept branch of the post-circuit pipeline: the feed receives the
ingress `N` record, then one `T` per fill; quantity is conserved against
the residual, and a residual (if any) carries the incoming order's id,
side, owner and timestamp and the quantised clamped price, and is
re-broadcast as a second `N` record with the same id. -/
theorem processAfterCircuit_accept_spec (s : Sim) (incoming : Order) (side : Side)
    (limit_price : ℚ) (quantity : ℤ) (now : ℚ) (slips : List ℚ)
    (hter : ¬(clampPrice s limit_price < terLow s ∨
      clampPrice s limit_price > terHigh s)) :
    ∃ ts : List FeedMsg,
      (∀ m ∈ ts, m.kind = MsgType.T) ∧
      (((processAfterCircuit s incoming side limit_price quantity now slips).2 = none ∧
        (processAfterCircuit s incoming side limit_price quantity now slips).1.feed =
          s.feed ++
            (⟨s.feedSeq, MsgType.N, incoming.id, 0, enforce_tick incoming.price,
              incoming.quantity⟩ :: ts) ∧
        (0 ≤ quantity → (ts.map fun m => m.qty).sum = quantity)) ∨
       (∃ r : Order, ∃ m2 : FeedMsg,
        (processAfterCircuit s incoming side limit_price quantity now slips).2 = some r ∧
        r.id = incoming.id ∧
        r.side = incoming.side ∧
        r.price = enforce_tick (clampPrice s limit_price) ∧
        r.timestamp_ns = incoming.timestamp_ns ∧
        r.owner = incoming.owner ∧
        0 < r.quantity ∧
        (ts.map fun m => m.qty).sum + r.quantity = quantity ∧
        m2.kind = MsgType.N ∧ m2.oid = r.id ∧ m2.qty = r.quantity ∧
        (processAfterCircuit s incoming side limit_price quantity now slips).1.feed =
          s.feed ++
            (⟨s.feedSeq, MsgType.N, incoming.id, 0, enforce_tick incoming.price,
              incoming.quantity⟩ :: (ts ++ [m2])))) := by
  unfold processAfterCircuit
  dsimp only
  rw [clampPrice_send_order, terLow_send_order, terHigh_send_order, if_neg hter]
  cases side with
  | B =>
    simp only [matchBuy]
    obtain ⟨ts, hfeed, hkinds, hsum, hbids, hnid, hopen, hmem, hnn⟩ :=
      matchBuyFuel_spec incoming.id (enforce_tick (clampPrice s limit_price)) now
        ((send_order s incoming).asks.length + 1) (send_order s incoming) quantity slips
    refine ⟨ts, hkinds, ?_⟩
    split_ifs with hres
    · set R := matchBuyFuel ((send_order s incoming).asks.length + 1)
        (send_order s incoming) incoming.id
        (enforce_tick (clampPrice s limit_price)) now quantity slips with hR
      set RES : Order := { incoming with
        price := enforce_tick (clampPrice s limit_price), quantity := R.2 } with hRES
      refine Or.inr ⟨RES,
        ⟨(add_to_book R.1 RES).feedSeq, MsgType.N, RES.id, 0,
          enforce_tick RES.price, RES.quantity⟩,
        rfl, rfl, rfl, rfl, rfl, rfl, hres, hsum, rfl, rfl, rfl, ?_⟩
      show (add_to_book R.1 RES).feed ++ [_] = _
      rw [add_to_book_feed, hfeed]
      show (s.feed ++ [_]) ++ ts ++ [_] = _
      simp [List.append_assoc]
    · refine Or.inl ⟨rfl, ?_, ?_⟩
      · rw [hfeed]
        show (s.feed ++ [_]) ++ ts = _
        simp [List.append_assoc]
      · intro hq
        have := hnn hq
        omega
  | S =>
    simp only [matchSell]
    obtain ⟨ts, hfeed, hkinds, hsum, hasks, hnid, hopen, hmem, hnn⟩ :=
      matchSellFuel_spec incoming.id (enforce_tick (clampPrice s limit_price)) now
        ((send_order s incoming).bids.length + 1) (send_order s incoming) quantity slips
    refine ⟨ts, hkinds, ?_⟩
    split_ifs with hres
    · set R := matchSellFuel ((send_order s incoming).bids.length + 1)
        (send_order s incoming) incoming.id
        (enforce_tick (clampPrice s limit_price)) now quantity slips with hR
      set RES : Order := { incoming with
        price := enforce_tick (clampPrice s limit_price), quantity := R.2 } with hRES
      refine Or.inr ⟨RES,
        ⟨(add_to_book R.1 RES).feedSeq, MsgType.N, RES.id, 0,
          enforce_tick RES.price, RES.quantity⟩,
        rfl, rfl, rfl, rfl, rfl, rfl, hres, hsum, rfl, rfl, rfl, ?_⟩
      show (add_to_book R.1 RES).feed ++ [_] = _
      rw [add_to_book_feed, hfeed]
      show (s.feed ++ [_]) ++ ts ++ [_] = _
      simp [List.append_assoc]
    · refine Or.inl ⟨rfl, ?_, ?_⟩
      · rw [hfeed]
        show (s.feed ++ [_]) ++ ts = _
        simp [List.append_assoc]
      · intro hq
        have := hnn hq
        omega

/-! ### Book lookup invariants (for cancel / edit semantics) -/

/-- Order ids are pairwise distinct across the whole book (holds in every
reachable state: ids come from the monotone global counter). -/
def idsNodup (s : Sim) : Prop :=
  ((s.bids ++ s.asks).map fun o => o.id).Nodup

/-- Every order rests on the side list matching its own `side` field
(holds in every reachable state: `_add_to_book` files by `order.side`). -/
def sidesOk (s : Sim) : Prop :=
  (∀ o ∈ s.bids, o.side = Side.B) ∧ (∀ o ∈ s.asks, o.side = Side.S)

theorem lookupById_mem {s : Sim} {i : ℕ} {o : Order}
    (h : lookupById s i = some o) : o ∈ s.bids ++ s.asks ∧ o.id = i :=
  ⟨List.mem_of_find?_eq_some h, by simpa using List.find?_some h⟩

/-- After removing the (unique) order with id `i`, no order with that id
remains in the list. -/
theorem removeFirstById_id_ne :
    ∀ {l : List Order} {i : ℕ}, (l.map fun o => o.id).Nodup →
      ∀ x ∈ removeFirstById l i, x.id ≠ i
  | [], _, _, x, hx => by simp [removeFirstById] at hx
  | o :: os, i, h, x, hx => by
    simp only [List.map_cons, List.nodup_cons] at h
    unfold removeFirstById at hx
    by_cases ho : o.id = i
    · rw [if_pos ho] at hx
      intro hxi
      refine h.1 ?_
      rw [ho, ← hxi]
      exact List.mem_map_of_mem _ hx
    · rw [if_neg ho] at hx
      rcases List.mem_cons.mp hx with rfl | hx'
      · exact ho
      · exact removeFirstById_id_ne h.2 x hx'

/-- After `remove_order s i` (with consistent sides and unique ids) the id
`i` is gone from both side lists. -/
theorem remove_order_clears_id (s : Sim) (i : ℕ) (o : Order)
    (hl : lookupById s i = some o) (hnodup : idsNodup s) (hsides : sidesOk s) :
    ∀ x ∈ (remove_order s i).bids ++ (remove_order s i).asks, x.id ≠ i := by
  obtain ⟨hmem, hid⟩ := lookupById_mem hl
  have hnodup' := hnodup
  unfold idsNodup at hnodup'
  rw [List.map_append, List.nodup_append] at hnodup'
  obtain ⟨hnb, hna, hdisj⟩ := hnodup'
  have hoside : (o ∈ s.bids ∧ o.side = Side.B) ∨ (o ∈ s.asks ∧ o.side = Side.S) := by
    rcases List.mem_append.mp hmem with h' | h'
    · exact Or.inl ⟨h', hsides.1 o h'⟩
    · exact Or.inr ⟨h', hsides.2 o h'⟩
  unfold remove_order
  rw [hl]
  dsimp only
  rcases hoside with ⟨hob, hsB⟩ | ⟨hoa, hsS⟩
  · rw [hsB]
    dsimp only
    intro x hx
    rcases List.mem_append.mp hx with hx' | hx'
    · exact removeFirstById_id_ne hnb x hx'
    · intro hxi
      have h1 : i ∈ List.map (fun o => o.id) s.bids := by
        rw [← hid]
        exact List.mem_map_of_mem _ hob
      have h2 : i ∈ List.map (fun o => o.id) s.asks := by
        rw [← hxi]
        exact List.mem_map_of_mem _ hx'
      exact hdisj h1 h2
  · rw [hsS]
    dsimp only
    intro x hx
    rcases List.mem_append.mp hx with hx' | hx'
    · intro hxi
      have h1 : i ∈ List.map (fun o => o.id) s.bids := by
        rw [← hxi]
        exact List.mem_map_of_mem _ hx'
      have h2 : i ∈ List.map (fun o => o.id) s.asks := by
        rw [← hid]
        exact List.mem_map_of_mem _ hoa
      exact hdisj h1 h2
    · exact removeFirstById_id_ne hna x hx'

theorem lookupById_remove_order (s : Sim) (i : ℕ) (o : Order)
    (hl : lookupById s i = some o) (hnodup : idsNodup s) (hsides : sidesOk s) :
    lookupById (remove_order s i) i = none := by
  apply List.find?_eq_none.mpr
  intro x hx
  simp only [decide_eq_true_eq]
  exact remove_order_clears_id s i o hl hnodup hsides x hx

/-! ### Concrete runs shared by the claim theorems below -/

/-- Submit S@700 qty 1 into the fresh book: it rests as ask id 1. -/
def c1s1 : Sim := (process_order Sim.init .S 700 1 none 0 0 []).1

/-- Second resting sell: ask id 2 at 700. -/
def c1s2 : Sim := (process_order c1s1 .S 700 1 none 0 0 []).1

/-- Edit ask 1 down to 500 (edits are not band/TER gated). -/
def c1s3 : Sim := (edit_order c1s2 1 (some 500) none 0).1

/-- Edit ask 2 down to 595. -/
def c1s4 : Sim := (edit_order c1s3 2 (some 595) none 0).1

/-- Buy 700 qty 2 with zero slippage: fills at 500 (band breach: lower
bound 630), then at 595 (breach of the expanded bound 595). -/
def c1s5 : Sim := (process_order c1s4 .B 700 2 none 0 0 [0, 0]).1

/-- A bid resting at 690 below the ask at 700. -/
def c2s2 : Sim := (process_order c1s1 .B 690 1 none 0 0 []).1

/-- Edit the resting bid from 690 up to 710, above the resting ask. -/
def c2s3 : Sim := (edit_order c2s2 2 (some 710) none 0).1

/-! ### Claim theorems -/

/-- C1, counterexample.  The claim states `trigger_circuit_breaker` /
`expand_daily_band` run only when the breaker is not already active, so
within one submit the band can expand at most once (10% → 15%).  In this
run the breaker is inactive and the band is ±10% before the final buy
submit, yet that single submit leaves the band at ±20%: its first fill at
500 breaches the lower bound 630 (activating the breaker and expanding to
±15%, lower bound 595) and its second fill at 595 breaches again while
the breaker is already active, expanding a second time — the band-breach
code of `process_order` has no `circuit_active` guard. -/
theorem c1_counterexample :
    c1s4.circuit_active = false ∧ c1s4.current_band_percent = 10 ∧
    c1s5.circuit_active = true ∧ c1s5.current_band_percent = 20 := by
  norm_num [c1s5, c1s4, c1s3, c1s2, c1s1, process_order, processAfterCircuit,
    matchSell, matchSellFuel, fillStepSell, matchBuy, matchBuyFuel, fillStepBuy,
    clampPrice, terLow, terHigh, send_order, send_rejection, send_trade,
    send_cancel, send_cancel_ack, send_edit_ack, emit, add_existing_order,
    add_to_book, remove_order, removeFirstById, updateHeadAtPrice, lookupById,
    edit_order, cancel_order, bestAskPrice, bestBidPrice, enforce_tick,
    roundHalfEven, trigger_circuit_breaker, expand_daily_band, Sim.init,
    INITIAL_PRICE, MAX_DAILY_MOVE_PERCENT, TER_PERCENT,
    CIRCUIT_BREAKER_DURATION, BAND_EXPANSION_INCREMENT]

/-- C1, amended.  On every individual fill whose post-slippage trade
price reaches the daily band, `process_order` invokes
`trigger_circuit_breaker` and `expand_daily_band` unconditionally —
regardless of whether the breaker is already active: the breaker flag is
(re)set, the trigger time is refreshed to the current instant, and
`current_band_percent` grows by `BAND_EXPANSION_INCREMENT` again. -/
theorem c1_amended :
    ∀ (s : Sim) (inId : ℕ) (now bp : ℚ) (resting : Order) (remaining : ℤ)
      (slip : ℚ),
    ((enforce_tick (bp + slip) ≤ s.daily_lower_bound ∨
        enforce_tick (bp + slip) ≥ s.daily_upper_bound) →
      (fillStepBuy s inId now bp resting remaining slip).1.circuit_active = true ∧
      (fillStepBuy s inId now bp resting remaining slip).1.circuit_trigger_time =
        some now ∧
      (fillStepBuy s inId now bp resting remaining slip).1.current_band_percent =
        s.current_band_percent + BAND_EXPANSION_INCREMENT) ∧
    ((enforce_tick (bp - slip) ≤ s.daily_lower_bound ∨
        enforce_tick (bp - slip) ≥ s.daily_upper_bound) →
      (fillStepSell s inId now bp resting remaining slip).1.circuit_active = true ∧
      (fillStepSell s inId now bp resting remaining slip).1.circuit_trigger_time =
        some now ∧
      (fillStepSell s inId now bp resting remaining slip).1.current_band_percent =
        s.current_band_percent + BAND_EXPANSION_INCREMENT) := by
  intro s inId now bp resting remaining slip
  constructor
  · intro hb
    simp only [fillStepBuy, send_trade, emit, expand_daily_band,
      trigger_circuit_breaker]
    rw [if_pos hb]
    split_ifs <;> exact ⟨rfl, rfl, rfl⟩
  · intro hb
    simp only [fillStepSell, send_trade, emit, expand_daily_band,
      trigger_circuit_breaker]
    rw [if_pos hb]
    split_ifs <;> exact ⟨rfl, rfl, rfl⟩

/-- Witness for `c1_amended`: a fill at the lower bound 630 (buy side)
and one at the upper bound 770 (sell side) of the fresh engine state. -/
theorem c1_amended_witness :
    ((fillStepBuy Sim.init 1 0 630 ⟨7, Side.S, 630, 1, 0, none, true⟩ 1 0).1.circuit_active =
        true ∧
      (fillStepBuy Sim.init 1 0 630 ⟨7, Side.S, 630, 1, 0, none, true⟩ 1 0).1.circuit_trigger_time =
        some 0 ∧
      (fillStepBuy Sim.init 1 0 630 ⟨7, Side.S, 630, 1, 0, none, true⟩ 1 0).1.current_band_percent =
        Sim.init.current_band_percent + BAND_EXPANSION_INCREMENT) ∧
    ((fillStepSell Sim.init 1 0 770 ⟨8, Side.B, 770, 1, 0, none, true⟩ 1 0).1.circuit_active =
        true ∧
      (fillStepSell Sim.init 1 0 770 ⟨8, Side.B, 770, 1, 0, none, true⟩ 1 0).1.circuit_trigger_time =
        some 0 ∧
      (fillStepSell Sim.init 1 0 770 ⟨8, Side.B, 770, 1, 0, none, true⟩ 1 0).1.current_band_percent =
        Sim.init.current_band_percent + BAND_EXPANSION_INCREMENT) :=
  ⟨(c1_amended Sim.init 1 0 630 ⟨7, Side.S, 630, 1, 0, none, true⟩ 1 0).1
      (Or.inl (by norm_num [enforce_tick, roundHalfEven, Sim.init,
        INITIAL_PRICE, MAX_DAILY_MOVE_PERCENT])),
   (c1_amended Sim.init 1 0 770 ⟨8, Side.B, 770, 1, 0, none, true⟩ 1 0).2
      (Or.inr (by norm_num [enforce_tick, roundHalfEven, Sim.init,
        INITIAL_PRICE, MAX_DAILY_MOVE_PERCENT]))⟩

/-- C2, counterexample.  The claim includes `edit_order` among the
operations after which the book is never crossed.  Here an ask rests at
700 and a bid rests at 690; editing the bid's price to 710 succeeds and
leaves best bid 710 ≥ best ask 700 with both sides populated:
`edit_order` re-prices without any crossing (or band/TER) check. -/
theorem c2_counterexample :
    (edit_order c2s2 2 (some 710) none 0).2 = true ∧
    bestBidPrice c2s3.bids = some 710 ∧
    bestAskPrice c2s3.asks = some 700 ∧
    ¬ (710 : ℚ) < 700 := by
  norm_num [c2s3, c2s2, c1s1, process_order, processAfterCircuit,
    matchSell, matchSellFuel, fillStepSell, matchBuy, matchBuyFuel, fillStepBuy,
    clampPrice, terLow, terHigh, send_order, send_rejection, send_trade,
    send_cancel, send_cancel_ack, send_edit_ack, emit, add_existing_order,
    add_to_book, remove_order, removeFirstById, updateHeadAtPrice, lookupById,
    edit_order, cancel_order, bestAskPrice, bestBidPrice, enforce_tick,
    roundHalfEven, trigger_circuit_breaker, expand_daily_band, Sim.init,
    INITIAL_PRICE, MAX_DAILY_MOVE_PERCENT, TER_PERCENT,
    CIRCUIT_BREAKER_DURATION, BAND_EXPANSION_INCREMENT]

/-- C2, amended.  After every completed submit (`process_order`) and
cancel (`cancel_order`), a book that was uncrossed stays uncrossed: no
resting bid has price greater than or equal to any resting ask's price.
The original claim also covered `edit_order`, which `c2_counterexample`
refutes — an edit can re-price an order across the opposite side. -/
theorem c2_amended :
    (∀ (s : Sim) (side : Side) (limit_price : ℚ) (quantity : ℤ)
      (owner : Option ℕ) (now : ℚ) (ts : ℕ) (slips : List ℚ),
      uncrossed s →
      uncrossed (process_order s side limit_price quantity owner now ts slips).1) ∧
    (∀ (s : Sim) (i : ℕ), uncrossed s → uncrossed (cancel_order s i).1) :=
  ⟨fun s side limit_price quantity owner now ts slips h =>
    uncrossed_process_order s side limit_price quantity owner now ts slips h,
   fun s i h => uncrossed_cancel_order s i h⟩

/-- Witness for `c2_amended`: the fresh empty book is uncrossed, and it
stays uncrossed through a submit and through a cancel. -/
theorem c2_amended_witness :
    uncrossed (process_order Sim.init .B 700 1 none 0 0 []).1 ∧
    uncrossed (cancel_order Sim.init 1).1 :=
  ⟨c2_amended.1 Sim.init .B 700 1 none 0 0 []
      (fun b hb => by simp [Sim.init] at hb),
   c2_amended.2 Sim.init 1 (fun b hb => by simp [Sim.init] at hb)⟩

/-- C3, confirmed.  With the breaker inactive, `process_order` first
clamps the limit price to the daily band (`clampPrice`), stores the
quantised clamped value as the order's price, and only then applies the
TER gate to the post-clamp price: when the clamped price lies outside
`[terLow, terHigh]` the submit is rejected — an `R` record for the fresh
order follows the ingress `N`, nothing else changes and `none` is
returned; otherwise no `R` is ever emitted by the submit and any residual
returned carries exactly the quantised clamped price. -/
theorem c3_clamp_then_ter (s : Sim) (side : Side) (limit_price : ℚ)
    (quantity : ℤ) (owner : Option ℕ) (now : ℚ) (ts : ℕ) (slips : List ℚ)
    (hcirc : s.circuit_active = false) :
    ((clampPrice s limit_price < terLow s ∨ clampPrice s limit_price > terHigh s) →
      (process_order s side limit_price quantity owner now ts slips).2 = none ∧
      (process_order s side limit_price quantity owner now ts slips).1.bids = s.bids ∧
      (process_order s side limit_price quantity owner now ts slips).1.asks = s.asks ∧
      (process_order s side limit_price quantity owner now ts slips).1.feed =
        s.feed ++
          [⟨s.feedSeq, MsgType.N, s.nextOrderId, 0, enforce_tick limit_price, quantity⟩,
           ⟨s.feedSeq + 1, MsgType.R, s.nextOrderId, 0,
             enforce_tick (clampPrice s limit_price), quantity⟩]) ∧
    ((terLow s ≤ clampPrice s limit_price ∧ clampPrice s limit_price ≤ terHigh s) →
      (∀ m ∈ (process_order s side limit_price quantity owner now ts
          slips).1.feed.drop s.feed.length, m.kind ≠ MsgType.R) ∧
      (∀ r, (process_order s side limit_price quantity owner now ts slips).2 =
          some r → r.price = enforce_tick (clampPrice s limit_price))) := by
  rw [process_order_circuitFalse s side limit_price quantity owner now ts slips hcirc]
  have hfs : ({ s with nextOrderId := s.nextOrderId + 1 } : Sim).feed = s.feed := rfl
  constructor
  · intro hter
    have hter0 : clampPrice ({ s with nextOrderId := s.nextOrderId + 1 } : Sim)
        limit_price < terLow { s with nextOrderId := s.nextOrderId + 1 } ∨
        clampPrice ({ s with nextOrderId := s.nextOrderId + 1 } : Sim)
          limit_price > terHigh { s with nextOrderId := s.nextOrderId + 1 } := hter
    rw [processAfterCircuit_ter_reject _ _ _ _ _ _ _ hter0]
    refine ⟨rfl, rfl, rfl, ?_⟩
    have hcl : clampPrice ({ s with nextOrderId := s.nextOrderId + 1 } : Sim)
        limit_price = clampPrice s limit_price := rfl
    simp [send_rejection, send_order, emit, enforce_tick_idem, hcl]
  · intro hter2
    have hter : ¬(clampPrice ({ s with nextOrderId := s.nextOrderId + 1 } : Sim)
        limit_price < terLow { s with nextOrderId := s.nextOrderId + 1 } ∨
        clampPrice ({ s with nextOrderId := s.nextOrderId + 1 } : Sim)
          limit_price > terHigh { s with nextOrderId := s.nextOrderId + 1 }) := by
      rw [not_or, not_lt, not_lt]
      exact ⟨hter2.1, hter2.2⟩
    obtain ⟨trades, hkinds, hcases⟩ :=
      processAfterCircuit_accept_spec { s with nextOrderId := s.nextOrderId + 1 }
        { id := s.nextOrderId, side := side, price := enforce_tick limit_price
          quantity := quantity, timestamp_ns := ts, owner := owner, active := true }
        side limit_price quantity now slips hter
    constructor
    · intro m hm
      rcases hcases with ⟨hnone, hfeed, hsum⟩ |
          ⟨r, m2, hsome, hid, hsde, hp, hts, how, hpos, hsum, hm2k, hm2o, hm2q, hfeed⟩
      · rw [hfeed, hfs, List.drop_left] at hm
        rcases List.mem_cons.mp hm with rfl | hm'
        · simp
        · rw [hkinds m hm']
          simp
      · rw [hfeed, hfs, List.drop_left] at hm
        rcases List.mem_cons.mp hm with rfl | hm'
        · simp
        · rcases List.mem_append.mp hm' with hm'' | hm''
          · rw [hkinds m hm'']
            simp
          · obtain rfl : m = m2 := by simpa using hm''
            rw [hm2k]
            simp
    · intro r hr
      rcases hcases with ⟨hnone, hfeed, hsum⟩ |
          ⟨r0, m2, hsome, hid, hsde, hp, hts, how, hpos, hsum, hm2k, hm2o, hm2q, hfeed⟩
      · rw [hr] at hnone
        exact absurd hnone (by simp)
      · rw [hr] at hsome
        obtain rfl : r = r0 := by simpa using hsome
        exact hp

/-- Witness for `c3_clamp_then_ter`: from the fresh state (open 700,
band [630, 770], TER [665, 735]), a buy at 800 is clamped to 770 and
TER-rejected after its `N`, while a buy at 700 passes the gate with no
`R` and rests at the quantised clamped price. -/
theorem c3_witness :
    ((process_order Sim.init .B 800 1 none 0 0 []).2 = none ∧
     (process_order Sim.init .B 800 1 none 0 0 []).1.bids = Sim.init.bids ∧
     (process_order Sim.init .B 800 1 none 0 0 []).1.asks = Sim.init.asks ∧
     (process_order Sim.init .B 800 1 none 0 0 []).1.feed =
       Sim.init.feed ++
         [⟨Sim.init.feedSeq, MsgType.N, Sim.init.nextOrderId, 0,
            enforce_tick 800, 1⟩,
          ⟨Sim.init.feedSeq + 1, MsgType.R, Sim.init.nextOrderId, 0,
            enforce_tick (clampPrice Sim.init 800), 1⟩]) ∧
    ((∀ m ∈ (process_order Sim.init .B 700 1 none 0 0
        []).1.feed.drop Sim.init.feed.length, m.kind ≠ MsgType.R) ∧
     (∀ r, (process_order Sim.init .B 700 1 none 0 0 []).2 = some r →
       r.price = enforce_tick (clampPrice Sim.init 700))) :=
  ⟨(c3_clamp_then_ter Sim.init .B 800 1 none 0 0 [] rfl).1
      (Or.inr (by norm_num [clampPrice, terLow, terHigh, Sim.init,
        INITIAL_PRICE, MAX_DAILY_MOVE_PERCENT, TER_PERCENT])),
   (c3_clamp_then_ter Sim.init .B 700 1 none 0 0 [] rfl).2
      (by norm_num [clampPrice, terLow, terHigh, Sim.init,
        INITIAL_PRICE, MAX_DAILY_MOVE_PERCENT, TER_PERCENT])⟩

/-- C4, confirmed.  (1) A fill that only partly consumes the head of the
best opposite level leaves that very order in place — same id, same
timestamp, same position — with quantity `quantity_before − trade_qty`
(`trade_qty = min remaining quantity_before`); this holds on the buy side
and (2) on the sell side.  (3) For a submit of quantity `Q ≥ 0` that
reaches matching (breaker inactive, TER passed), the trade quantities
emitted by the submit sum to `Q` when nothing rests, and to
`Q − residual.quantity` when a residual rests; the residual keeps the id
allocated at ingress and its original timestamp. -/
theorem c4_conservation :
    (∀ (s : Sim) (inId : ℕ) (now bp : ℚ) (resting : Order) (remaining : ℤ)
      (slip : ℚ),
      s.asks.find? (fun o => o.price = bp) = some resting →
      (fillStepBuy s inId now bp resting remaining slip).2.2 = false →
      ∃ l1 l2, s.asks = l1 ++ resting :: l2 ∧
        (fillStepBuy s inId now bp resting remaining slip).1.asks =
          l1 ++ { resting with
            quantity := resting.quantity - min remaining resting.quantity } :: l2) ∧
    (∀ (s : Sim) (inId : ℕ) (now bp : ℚ) (resting : Order) (remaining : ℤ)
      (slip : ℚ),
      s.bids.find? (fun o => o.price = bp) = some resting →
      (fillStepSell s inId now bp resting remaining slip).2.2 = false →
      ∃ l1 l2, s.bids = l1 ++ resting :: l2 ∧
        (fillStepSell s inId now bp resting remaining slip).1.bids =
          l1 ++ { resting with
            quantity := resting.quantity - min remaining resting.quantity } :: l2) ∧
    (∀ (s : Sim) (side : Side) (limit_price : ℚ) (quantity : ℤ)
      (owner : Option ℕ) (now : ℚ) (ts : ℕ) (slips : List ℚ),
      s.circuit_active = false →
      ¬(clampPrice s limit_price < terLow s ∨
        clampPrice s limit_price > terHigh s) →
      0 ≤ quantity →
      ∃ trades : List FeedMsg,
        (∀ m ∈ trades, m.kind = MsgType.T) ∧
        (((process_order s side limit_price quantity owner now ts slips).2 = none ∧
          (trades.map fun m => m.qty).sum = quantity ∧
          (process_order s side limit_price quantity owner now ts slips).1.feed =
            s.feed ++ (⟨s.feedSeq, MsgType.N, s.nextOrderId, 0,
              enforce_tick limit_price, quantity⟩ :: trades)) ∨
         (∃ r, (process_order s side limit_price quantity owner now ts slips).2 =
            some r ∧
          (trades.map fun m => m.qty).sum + r.quantity = quantity ∧
          r.id = s.nextOrderId ∧ r.timestamp_ns = ts ∧
          ∃ m2, m2.kind = MsgType.N ∧ m2.oid = r.id ∧ m2.qty = r.quantity ∧
            (process_order s side limit_price quantity owner now ts slips).1.feed =
              s.feed ++ (⟨s.feedSeq, MsgType.N, s.nextOrderId, 0,
                enforce_tick limit_price, quantity⟩ :: (trades ++ [m2]))))) := by
  refine ⟨?_, ?_, ?_⟩
  · intro s inId now bp resting remaining slip hfind hnotrem
    obtain ⟨l1, l2, hdecomp, hne, hupd⟩ := find?_price_decomp hfind
    refine ⟨l1, l2, hdecomp, ?_⟩
    rw [fillStepBuy_asks]
    rw [if_neg ?_]
    · exact hupd _
    · have := fillStepBuy_removed s inId now bp resting remaining slip
      rw [hnotrem] at this
      exact of_decide_eq_false this.symm
  · intro s inId now bp resting remaining slip hfind hnotrem
    obtain ⟨l1, l2, hdecomp, hne, hupd⟩ := find?_price_decomp hfind
    refine ⟨l1, l2, hdecomp, ?_⟩
    rw [fillStepSell_bids]
    rw [if_neg ?_]
    · exact hupd _
    · have := fillStepSell_removed s inId now bp resting remaining slip
      rw [hnotrem] at this
      exact of_decide_eq_false this.symm
  · intro s side limit_price quantity owner now ts slips hcirc hter hq
    rw [process_order_circuitFalse s side limit_price quantity owner now ts slips hcirc]
    have hfs : ({ s with nextOrderId := s.nextOrderId + 1 } : Sim).feed = s.feed := rfl
    have hter0 : ¬(clampPrice ({ s with nextOrderId := s.nextOrderId + 1 } : Sim)
        limit_price < terLow { s with nextOrderId := s.nextOrderId + 1 } ∨
        clampPrice ({ s with nextOrderId := s.nextOrderId + 1 } : Sim)
          limit_price > terHigh { s with nextOrderId := s.nextOrderId + 1 }) := hter
    obtain ⟨trades, hkinds, hcases⟩ :=
      processAfterCircuit_accept_spec { s with nextOrderId := s.nextOrderId + 1 }
        { id := s.nextOrderId, side := side, price := enforce_tick limit_price
          quantity := quantity, timestamp_ns := ts, owner := owner, active := true }
        side limit_price quantity now slips hter0
    refine ⟨trades, hkinds, ?_⟩
    rcases hcases with ⟨hnone, hfeed, hsum⟩ |
        ⟨r, m2, hsome, hid, hsde, hp, hts, how, hpos, hsum, hm2k, hm2o, hm2q, hfeed⟩
    · refine Or.inl ⟨hnone, hsum hq, ?_⟩
      rw [hfeed, hfs]
      simp [enforce_tick_idem]
    · refine Or.inr ⟨r, hsome, hsum, hid, hts, m2, hm2k, hm2o, hm2q, ?_⟩
      rw [hfeed, hfs]
      simp [enforce_tick_idem]

/-- A small two-sided book used by witnesses: one ask of 5 at 700 and
one bid of 5 at 690. -/
def c4book : Sim :=
  { Sim.init with
    asks := [⟨3, Side.S, 700, 5, 11, none, true⟩]
    bids := [⟨4, Side.B, 690, 5, 12, none, true⟩] }

/-- Witness for `c4_conservation`: a buy fill of 2 against the resting
ask of 5 leaves the same order with quantity 3, a sell fill of 2 against
the resting bid of 5 leaves quantity 3, and a buy submit of 2 against the
single ask of 1 in `c1s1` conserves quantity against its residual. -/
theorem c4_witness :
    (∃ l1 l2, c4book.asks = l1 ++ ⟨3, Side.S, 700, 5, 11, none, true⟩ :: l2 ∧
      (fillStepBuy c4book 9 0 700 ⟨3, Side.S, 700, 5, 11, none, true⟩ 2 0).1.asks =
        l1 ++ ⟨3, Side.S, 700, 5 - min 2 5, 11, none, true⟩ :: l2) ∧
    (∃ l1 l2, c4book.bids = l1 ++ ⟨4, Side.B, 690, 5, 12, none, true⟩ :: l2 ∧
      (fillStepSell c4book 9 0 690 ⟨4, Side.B, 690, 5, 12, none, true⟩ 2 0).1.bids =
        l1 ++ ⟨4, Side.B, 690, 5 - min 2 5, 12, none, true⟩ :: l2) ∧
    (∃ trades : List FeedMsg,
      (∀ m ∈ trades, m.kind = MsgType.T) ∧
      (((process_order c1s1 .B 700 2 none 0 7 [0]).2 = none ∧
        (trades.map fun m => m.qty).sum = 2 ∧
        (process_order c1s1 .B 700 2 none 0 7 [0]).1.feed =
          c1s1.feed ++ (⟨c1s1.feedSeq, MsgType.N, c1s1.nextOrderId, 0,
            enforce_tick 700, 2⟩ :: trades)) ∨
       (∃ r, (process_order c1s1 .B 700 2 none 0 7 [0]).2 = some r ∧
        (trades.map fun m => m.qty).sum + r.quantity = 2 ∧
        r.id = c1s1.nextOrderId ∧ r.timestamp_ns = 7 ∧
        ∃ m2, m2.kind = MsgType.N ∧ m2.oid = r.id ∧ m2.qty = r.quantity ∧
          (process_order c1s1 .B 700 2 none 0 7 [0]).1.feed =
            c1s1.feed ++ (⟨c1s1.feedSeq, MsgType.N, c1s1.nextOrderId, 0,
              enforce_tick 700, 2⟩ :: (trades ++ [m2]))))) :=
  ⟨c4_conservation.1 c4book 9 0 700 ⟨3, Side.S, 700, 5, 11, none, true⟩ 2 0
      (by norm_num [c4book, Sim.init, List.find?])
      (by norm_num [fillStepBuy, send_trade, emit, expand_daily_band,
        trigger_circuit_breaker, c4book, Sim.init, INITIAL_PRICE,
        MAX_DAILY_MOVE_PERCENT, enforce_tick, roundHalfEven]),
   c4_conservation.2.1 c4book 9 0 690 ⟨4, Side.B, 690, 5, 12, none, true⟩ 2 0
      (by norm_num [c4book, Sim.init, List.find?])
      (by norm_num [fillStepSell, send_trade, emit, expand_daily_band,
        trigger_circuit_breaker, c4book, Sim.init, INITIAL_PRICE,
        MAX_DAILY_MOVE_PERCENT, enforce_tick, roundHalfEven]),
   c4_conservation.2.2 c1s1 .B 700 2 none 0 7 [0]
      (by norm_num [c1s1, process_order, processAfterCircuit, matchSell,
        matchSellFuel, fillStepSell, clampPrice, terLow, terHigh, send_order,
        send_rejection, send_trade, emit, add_existing_order, add_to_book,
        bestBidPrice, enforce_tick, roundHalfEven, Sim.init, INITIAL_PRICE,
        MAX_DAILY_MOVE_PERCENT, TER_PERCENT])
      (by norm_num [c1s1, process_order, processAfterCircuit, matchSell,
        matchSellFuel, fillStepSell, clampPrice, terLow, terHigh, send_order,
        send_rejection, send_trade, emit, add_existing_order, add_to_book,
        bestBidPrice, enforce_tick, roundHalfEven, Sim.init, INITIAL_PRICE,
        MAX_DAILY_MOVE_PERCENT, TER_PERCENT])
      (by norm_num)⟩

/-- C5, confirmed.  A submit arriving while the breaker is active and
unexpired (elapsed time since the trigger below
`CIRCUIT_BREAKER_DURATION`) is rejected regardless of price and
quantity: one `R` record for a synthetic order carrying the submitted
parameters (fresh id, quantised submitted price, submitted quantity) is
emitted, `none` is returned, and the book and engine fields are otherwise
unchanged (only the global id and sequence counters advance).  If the
elapsed time has reached the duration, the breaker is cleared and the
submit proceeds exactly as it would from the cleared state. -/
theorem c5_circuit_gate (s : Sim) (side : Side) (limit_price : ℚ)
    (quantity : ℤ) (owner : Option ℕ) (now : ℚ) (ts : ℕ) (slips : List ℚ)
    (t : ℚ) (hcirc : s.circuit_active = true)
    (htr : s.circuit_trigger_time = some t) :
    ((now - t < CIRCUIT_BREAKER_DURATION) →
      (process_order s side limit_price quantity owner now ts slips).2 = none ∧
      (process_order s side limit_price quantity owner now ts slips).1 =
        { s with
          nextOrderId := s.nextOrderId + 1
          feedSeq := s.feedSeq + 1
          feed := s.feed ++ [⟨s.feedSeq, MsgType.R, s.nextOrderId, 0,
            enforce_tick limit_price, quantity⟩] }) ∧
    (CIRCUIT_BREAKER_DURATION ≤ now - t →
      process_order s side limit_price quantity owner now ts slips =
        process_order
          { s with circuit_active := false, circuit_trigger_time := none }
          side limit_price quantity owner now ts slips) := by
  unfold process_order
  dsimp only
  rw [if_pos (show s.circuit_active = true from hcirc), htr]
  dsimp only
  constructor
  · intro hage
    rw [if_pos hage]
    refine ⟨rfl, ?_⟩
    simp [send_rejection, emit, enforce_tick_idem]
  · intro hage
    rw [if_neg (not_lt.mpr hage)]
    rw [if_neg (by simp)]

/-- The fresh state with the breaker just triggered at time 0. -/
def c5s : Sim :=
  { Sim.init with circuit_active := true, circuit_trigger_time := some 0 }

/-- Witness for `c5_circuit_gate`: with the breaker triggered at time 0,
a submit at time 1 is rejected outright and a submit at time 10 behaves
exactly as from the cleared state. -/
theorem c5_witness :
    ((process_order c5s .B 700 1 none 1 0 []).2 = none ∧
      (process_order c5s .B 700 1 none 1 0 []).1 =
        { c5s with
          nextOrderId := c5s.nextOrderId + 1
          feedSeq := c5s.feedSeq + 1
          feed := c5s.feed ++ [⟨c5s.feedSeq, MsgType.R, c5s.nextOrderId, 0,
            enforce_tick 700, 1⟩] }) ∧
    (process_order c5s .B 700 1 none 10 0 [] =
      process_order
        { c5s with circuit_active := false, circuit_trigger_time := none }
        .B 700 1 none 10 0 []) :=
  ⟨(c5_circuit_gate c5s .B 700 1 none 1 0 [] 0 rfl rfl).1
      (by norm_num [CIRCUIT_BREAKER_DURATION]),
   (c5_circuit_gate c5s .B 700 1 none 10 0 [] 0 rfl rfl).2
      (by norm_num [CIRCUIT_BREAKER_DURATION])⟩

/-- C6, counterexample.  The claim states `edit_order` requires
`new_quantity ≥ 1` when a quantity is supplied.  Editing the resting ask
(id 1, quantity 1) with `new_quantity = 0` nevertheless succeeds —
returns `true` — and leaves an order of quantity 0 resting in the book:
`edit_order` applies the supplied quantity without any validation. -/
theorem c6_counterexample :
    (edit_order c1s1 1 none (some 0) 5).2 = true ∧
    lookupById (edit_order c1s1 1 none (some 0) 5).1 1 =
      some ⟨1, Side.S, 700, 0, 5, none, true⟩ := by
  norm_num [c1s1, process_order, processAfterCircuit,
    matchSell, matchSellFuel, fillStepSell, matchBuy, matchBuyFuel, fillStepBuy,
    clampPrice, terLow, terHigh, send_order, send_rejection, send_trade,
    send_cancel, send_cancel_ack, send_edit_ack, emit, add_existing_order,
    add_to_book, remove_order, removeFirstById, updateHeadAtPrice, lookupById,
    edit_order, cancel_order, bestAskPrice, bestBidPrice, enforce_tick,
    roundHalfEven, trigger_circuit_breaker, expand_daily_band, Sim.init,
    INITIAL_PRICE, MAX_DAILY_MOVE_PERCENT, TER_PERCENT,
    CIRCUIT_BREAKER_DURATION, BAND_EXPANSION_INCREMENT, List.find?]

/-- C6, amended.  For an id whose order is resting and active,
`edit_order` removes the order, quantises `new_price` when supplied,
applies any supplied `new_quantity` without validation (the source has no
`new_quantity ≥ 1` check — see `c6_counterexample`), reinserts the order
at the back of its price level with the refreshed timestamp (losing time
priority), emits one edit-ack record, and returns `true`; for an absent
or inactive id it returns `false` and changes nothing. -/
theorem c6_amended (s : Sim) (i : ℕ) (newPrice : Option ℚ) (newQty : Option ℤ)
    (newTs : ℕ) :
    (∀ o, lookupById s i = some o → o.active = true →
      (edit_order s i newPrice newQty newTs).2 = true ∧
      (∃ m, (edit_order s i newPrice newQty newTs).1.feed = s.feed ++ [m] ∧
        m.kind = MsgType.E ∧ m.oid = o.id) ∧
      (o.side = Side.B →
        (edit_order s i newPrice newQty newTs).1.bids =
          removeFirstById s.bids i ++
            [⟨o.id, o.side,
              match newPrice with | none => o.price | some p => enforce_tick p,
              match newQty with | none => o.quantity | some q => q,
              newTs, o.owner, o.active⟩] ∧
        (edit_order s i newPrice newQty newTs).1.asks = s.asks) ∧
      (o.side = Side.S →
        (edit_order s i newPrice newQty newTs).1.asks =
          removeFirstById s.asks i ++
            [⟨o.id, o.side,
              match newPrice with | none => o.price | some p => enforce_tick p,
              match newQty with | none => o.quantity | some q => q,
              newTs, o.owner, o.active⟩] ∧
        (edit_order s i newPrice newQty newTs).1.bids = s.bids)) ∧
    (lookupById s i = none → edit_order s i newPrice newQty newTs = (s, false)) ∧
    (∀ o, lookupById s i = some o → o.active = false →
      edit_order s i newPrice newQty newTs = (s, false)) := by
  refine ⟨?_, ?_, ?_⟩
  · intro o hl hact
    have key : edit_order s i newPrice newQty newTs =
        (send_edit_ack
          (add_to_book (remove_order s i)
            ⟨o.id, o.side,
              match newPrice with | none => o.price | some p => enforce_tick p,
              match newQty with | none => o.quantity | some q => q,
              newTs, o.owner, o.active⟩)
          ⟨o.id, o.side,
            match newPrice with | none => o.price | some p => enforce_tick p,
            match newQty with | none => o.quantity | some q => q,
            newTs, o.owner, o.active⟩, true) := by
      unfold edit_order
      rw [hl]
      dsimp only
      rw [if_neg (by simp [hact])]
      cases newPrice <;> cases newQty <;> rfl
    rw [key]
    clear key
    refine ⟨rfl, ⟨⟨(add_to_book (remove_order s i)
        ⟨o.id, o.side,
          match newPrice with | none => o.price | some p => enforce_tick p,
          match newQty with | none => o.quantity | some q => q,
          newTs, o.owner, o.active⟩).feedSeq, MsgType.E, o.id, 0,
        enforce_tick
          (match newPrice with | none => o.price | some p => enforce_tick p),
        match newQty with | none => o.quantity | some q => q⟩, ?_, rfl, rfl⟩,
      ?_, ?_⟩
    · show (add_to_book (remove_order s i) _).feed ++ [_] = _
      rw [add_to_book_feed, remove_order_feed]
    · intro hsB
      have hrem : remove_order s i =
          { s with bids := removeFirstById s.bids i } := by
        unfold remove_order
        rw [hl]
        dsimp only
        rw [hsB]
      constructor
      · show (add_to_book (remove_order s i) _).bids = _
        simp only [add_to_book, hsB]
        rw [hrem]
      · show (add_to_book (remove_order s i) _).asks = _
        simp only [add_to_book, hsB]
        rw [hrem]
    · intro hsS
      have hrem : remove_order s i =
          { s with asks := removeFirstById s.asks i } := by
        unfold remove_order
        rw [hl]
        dsimp only
        rw [hsS]
      constructor
      · show (add_to_book (remove_order s i) _).asks = _
        simp only [add_to_book, hsS]
        rw [hrem]
      · show (add_to_book (remove_order s i) _).bids = _
        simp only [add_to_book, hsS]
        rw [hrem]
  · intro hl
    unfold edit_order
    rw [hl]
  · intro o hl hact
    unfold edit_order
    rw [hl]
    dsimp only
    rw [if_pos hact]

/-- Witness for `c6_amended`: editing the resting ask (id 1) of `c1s1` to
price 710 and quantity 3 succeeds as described, and editing the absent id
9 fails as a no-op. -/
theorem c6_amended_witness :
    ((edit_order c1s1 1 (some 710) (some 3) 9).2 = true ∧
      (∃ m, (edit_order c1s1 1 (some 710) (some 3) 9).1.feed =
          c1s1.feed ++ [m] ∧ m.kind = MsgType.E ∧ m.oid = 1) ∧
      (Side.S = Side.B →
        (edit_order c1s1 1 (some 710) (some 3) 9).1.bids =
          removeFirstById c1s1.bids 1 ++
            [⟨1, Side.S, enforce_tick 710, 3, 9, none, true⟩] ∧
        (edit_order c1s1 1 (some 710) (some 3) 9).1.asks = c1s1.asks) ∧
      (Side.S = Side.S →
        (edit_order c1s1 1 (some 710) (some 3) 9).1.asks =
          removeFirstById c1s1.asks 1 ++
            [⟨1, Side.S, enforce_tick 710, 3, 9, none, true⟩] ∧
        (edit_order c1s1 1 (some 710) (some 3) 9).1.bids = c1s1.bids)) ∧
    edit_order c1s1 9 (some 710) (some 3) 9 = (c1s1, false) :=
  ⟨(c6_amended c1s1 1 (some 710) (some 3) 9).1 ⟨1, Side.S, 700, 1, 0, none, true⟩
      (by norm_num [c1s1, process_order, processAfterCircuit, matchSell,
        matchSellFuel, fillStepSell, clampPrice, terLow, terHigh, send_order,
        send_rejection, send_trade, emit, add_existing_order, add_to_book,
        bestBidPrice, lookupById, enforce_tick, roundHalfEven, Sim.init,
        INITIAL_PRICE, MAX_DAILY_MOVE_PERCENT, TER_PERCENT, List.find?]) rfl,
   (c6_amended c1s1 9 (some 710) (some 3) 9).2.1
      (by norm_num [c1s1, process_order, processAfterCircuit, matchSell,
        matchSellFuel, fillStepSell, clampPrice, terLow, terHigh, send_order,
        send_rejection, send_trade, emit, add_existing_order, add_to_book,
        bestBidPrice, lookupById, enforce_tick, roundHalfEven, Sim.init,
        INITIAL_PRICE, MAX_DAILY_MOVE_PERCENT, TER_PERCENT, List.find?])⟩

theorem cancel_order_noop (s : Sim) (i : ℕ) (h : lookupById s i = none) :
    cancel_order s i = (s, false) := by
  unfold cancel_order
  rw [h]

theorem edit_order_noop (s : Sim) (i : ℕ) (newPrice : Option ℚ)
    (newQty : Option ℤ) (newTs : ℕ) (h : lookupById s i = none) :
    edit_order s i newPrice newQty newTs = (s, false) := by
  unfold edit_order
  rw [h]

/-- C7, confirmed.  A successful `cancel_order` on a resting active order
removes it from the price-level queue and the by-id lookup, emits exactly
one cancel (`X`) and one cancel-ack (`K`) record, and returns `true`;
afterwards any further cancel or edit of the same id returns `false` and
is a complete no-op with nothing emitted, exactly as for an id that was
never present. -/
theorem c7_cancel_semantics (s : Sim) (i : ℕ) :
    (∀ o, lookupById s i = some o → o.active = true → idsNodup s → sidesOk s →
      (cancel_order s i).2 = true ∧
      (∃ m1 m2, (cancel_order s i).1.feed = s.feed ++ [m1, m2] ∧
        m1.kind = MsgType.X ∧ m2.kind = MsgType.K ∧
        m1.oid = o.id ∧ m2.oid = o.id) ∧
      lookupById (cancel_order s i).1 i = none ∧
      cancel_order (cancel_order s i).1 i = ((cancel_order s i).1, false) ∧
      (∀ np nq nts, edit_order (cancel_order s i).1 i np nq nts =
        ((cancel_order s i).1, false))) ∧
    (lookupById s i = none →
      cancel_order s i = (s, false) ∧
      ∀ np nq nts, edit_order s i np nq nts = (s, false)) := by
  constructor
  · intro o hl hact hnodup hsides
    have key : cancel_order s i =
        (send_cancel_ack (send_cancel (remove_order s i) { o with active := false })
          { o with active := false }, true) := by
      unfold cancel_order
      rw [hl]
      dsimp only
      rw [if_neg (by simp [hact])]
    have hafter : lookupById (cancel_order s i).1 i = none := by
      rw [key]
      exact lookupById_remove_order s i o hl hnodup hsides
    refine ⟨by rw [key], ?_, hafter,
      cancel_order_noop (cancel_order s i).1 i hafter,
      fun np nq nts => edit_order_noop (cancel_order s i).1 i np nq nts hafter⟩
    rw [key]
    refine ⟨⟨(remove_order s i).feedSeq, MsgType.X, o.id, 0,
        enforce_tick o.price, o.quantity⟩,
      ⟨(send_cancel (remove_order s i) { o with active := false }).feedSeq,
        MsgType.K, o.id, 0, enforce_tick o.price, o.quantity⟩, ?_, rfl, rfl, rfl, rfl⟩
    show ((remove_order s i).feed ++ [_]) ++ [_] = _
    rw [remove_order_feed]
    simp

  · intro hl
    exact ⟨cancel_order_noop s i hl,
      fun np nq nts => edit_order_noop s i np nq nts hl⟩

/-- Witness for `c7_cancel_semantics`: cancelling the resting ask (id 1)
of `c1s1` succeeds with `X` then `K`, after which cancelling or editing
id 1 fails and changes nothing; cancelling the absent id 9 fails. -/
theorem c7_witness :
    ((cancel_order c1s1 1).2 = true ∧
      (∃ m1 m2, (cancel_order c1s1 1).1.feed = c1s1.feed ++ [m1, m2] ∧
        m1.kind = MsgType.X ∧ m2.kind = MsgType.K ∧
        m1.oid = 1 ∧ m2.oid = 1) ∧
      lookupById (cancel_order c1s1 1).1 1 = none ∧
      cancel_order (cancel_order c1s1 1).1 1 = ((cancel_order c1s1 1).1, false) ∧
      (∀ np nq nts, edit_order (cancel_order c1s1 1).1 1 np nq nts =
        ((cancel_order c1s1 1).1, false))) ∧
    (cancel_order c1s1 9 = (c1s1, false) ∧
      ∀ np nq nts, edit_order c1s1 9 np nq nts = (c1s1, false)) :=
  ⟨(c7_cancel_semantics c1s1 1).1 ⟨1, Side.S, 700, 1, 0, none, true⟩
      (by norm_num [c1s1, process_order, processAfterCircuit, matchSell,
        matchSellFuel, fillStepSell, clampPrice, terLow, terHigh, send_order,
        send_rejection, send_trade, emit, add_existing_order, add_to_book,
        bestBidPrice, lookupById, enforce_tick, roundHalfEven, Sim.init,
        INITIAL_PRICE, MAX_DAILY_MOVE_PERCENT, TER_PERCENT, List.find?]) rfl
      (by norm_num [c1s1, process_order, processAfterCircuit, matchSell,
        matchSellFuel, fillStepSell, clampPrice, terLow, terHigh, send_order,
        send_rejection, send_trade, emit, add_existing_order, add_to_book,
        bestBidPrice, idsNodup, enforce_tick, roundHalfEven, Sim.init,
        INITIAL_PRICE, MAX_DAILY_MOVE_PERCENT, TER_PERCENT])
      (by norm_num [c1s1, process_order, processAfterCircuit, matchSell,
        matchSellFuel, fillStepSell, clampPrice, terLow, terHigh, send_order,
        send_rejection, send_trade, emit, add_existing_order, add_to_book,
        bestBidPrice, sidesOk, enforce_tick, roundHalfEven, Sim.init,
        INITIAL_PRICE, MAX_DAILY_MOVE_PERCENT, TER_PERCENT]),
   (c7_cancel_semantics c1s1 9).2
      (by norm_num [c1s1, process_order, processAfterCircuit, matchSell,
        matchSellFuel, fillStepSell, clampPrice, terLow, terHigh, send_order,
        send_rejection, send_trade, emit, add_existing_order, add_to_book,
        bestBidPrice, lookupById, enforce_tick, roundHalfEven, Sim.init,
        INITIAL_PRICE, MAX_DAILY_MOVE_PERCENT, TER_PERCENT, List.find?])⟩

/-- C8, confirmed.  The feed sequence numbers are drawn from the single
process-global counter of network.py: starting from process start-up
(`Sim.init`) every emitted record — whatever its kind and whichever of
submit, cancel or edit produced it — carries the next consecutive
sequence number, so the emitted feed always reads `1, 2, …, n` with no
gap and no reuse (`feedOk`), and each of the three operations preserves
this. -/
theorem c8_feed_sequence :
    feedOk Sim.init ∧
    (∀ (s : Sim) (side : Side) (limit_price : ℚ) (quantity : ℤ)
      (owner : Option ℕ) (now : ℚ) (ts : ℕ) (slips : List ℚ),
      feedOk s → feedOk (process_order s side limit_price quantity owner now ts slips).1) ∧
    (∀ (s : Sim) (i : ℕ), feedOk s → feedOk (cancel_order s i).1) ∧
    (∀ (s : Sim) (i : ℕ) (newPrice : Option ℚ) (newQty : Option ℤ) (newTs : ℕ),
      feedOk s → feedOk (edit_order s i newPrice newQty newTs).1) :=
  ⟨⟨rfl, rfl⟩,
   fun s side limit_price quantity owner now ts slips h =>
     feedOk_process_order s side limit_price quantity owner now ts slips h,
   fun s i h => feedOk_cancel_order s i h,
   fun s i newPrice newQty newTs h => feedOk_edit_order s i newPrice newQty newTs h⟩

/-- Witness for `c8_feed_sequence`: the gapless-sequence invariant holds
after a submit, a cancel and an edit applied to the fresh state. -/
theorem c8_witness :
    feedOk (process_order Sim.init .B 700 1 none 0 0 []).1 ∧
    feedOk (cancel_order Sim.init 1).1 ∧
    feedOk (edit_order Sim.init 1 none none 0).1 :=
  ⟨c8_feed_sequence.2.1 Sim.init .B 700 1 none 0 0 [] ⟨rfl, rfl⟩,
   c8_feed_sequence.2.2.1 Sim.init 1 ⟨rfl, rfl⟩,
   c8_feed_sequence.2.2.2 Sim.init 1 none none 0 ⟨rfl, rfl⟩⟩

theorem add_to_book_nextOrderId (s : Sim) (o : Order) :
    (add_to_book s o).nextOrderId = s.nextOrderId := by
  unfold add_to_book
  split <;> rfl

/-- The post-circuit pipeline never allocates another id: the counter is
untouched by clamping, TER, matching and residual insertion. -/
theorem processAfterCircuit_nextOrderId (s : Sim) (incoming : Order)
    (side : Side) (limit_price : ℚ) (quantity : ℤ) (now : ℚ) (slips : List ℚ) :
    (processAfterCircuit s incoming side limit_price quantity now
      slips).1.nextOrderId = s.nextOrderId := by
  have hB : ∀ (u : Sim) (fuel : ℕ) (inId : ℕ) (inPrice nw : ℚ) (rem : ℤ)
      (sl : List ℚ), u.nextOrderId = s.nextOrderId →
      (matchBuyFuel fuel u inId inPrice nw rem sl).1.nextOrderId = s.nextOrderId :=
    fun u fuel inId inPrice nw rem sl h =>
      matchBuyFuel_preserves (fun v => v.nextOrderId = s.nextOrderId)
        (fun v i2 n2 b2 r2 rem2 sl2 h2 =>
          (fillStepBuy_nextOrderId v i2 n2 b2 r2 rem2 sl2).trans h2)
        fuel u inId inPrice nw rem sl h
  have hS : ∀ (u : Sim) (fuel : ℕ) (inId : ℕ) (inPrice nw : ℚ) (rem : ℤ)
      (sl : List ℚ), u.nextOrderId = s.nextOrderId →
      (matchSellFuel fuel u inId inPrice nw rem sl).1.nextOrderId = s.nextOrderId :=
    fun u fuel inId inPrice nw rem sl h =>
      matchSellFuel_preserves (fun v => v.nextOrderId = s.nextOrderId)
        (fun v i2 n2 b2 r2 rem2 sl2 h2 =>
          (fillStepSell_nextOrderId v i2 n2 b2 r2 rem2 sl2).trans h2)
        fuel u inId inPrice nw rem sl h
  cases side with
  | B =>
    unfold processAfterCircuit
    dsimp only
    split_ifs with h1 h2
    · rfl
    · show (add_to_book _ _).nextOrderId = _
      rw [add_to_book_nextOrderId]
      exact hB _ _ _ _ _ _ _ rfl
    · exact hB _ _ _ _ _ _ _ rfl
  | S =>
    unfold processAfterCircuit
    dsimp only
    split_ifs with h1 h2
    · rfl
    · show (add_to_book _ _).nextOrderId = _
      rw [add_to_book_nextOrderId]
      exact hS _ _ _ _ _ _ _ rfl
    · exact hS _ _ _ _ _ _ _ rfl

/-- A buy at 800 is TER-rejected: it consumes id 2 without resting. -/
def c9s2 : Sim := (process_order c1s1 .B 800 1 none 0 0 []).1

/-- A further sell rests with id 3: the resting id sequence is 1, 3. -/
def c9s3 : Sim := (process_order c9s2 .S 700 1 none 0 0 []).1

/-- C9, confirmed.  Every `process_order` call allocates the next global
order id before any gating, so the counter advances by exactly one per
submit whatever the outcome — ids on the feed are strictly increasing and
never reused.  Concretely, after the resting submit (id 1) a TER-rejected
buy still consumes id 2 (its `N` and `R` records carry id 2), and the
next resting submit gets id 3, leaving resting ids `[1, 3]` with a gap. -/
theorem c9_fresh_ids :
    (∀ (s : Sim) (side : Side) (limit_price : ℚ) (quantity : ℤ)
      (owner : Option ℕ) (now : ℚ) (ts : ℕ) (slips : List ℚ),
      (process_order s side limit_price quantity owner now ts slips).1.nextOrderId =
        s.nextOrderId + 1) ∧
    (c9s2.asks.map (fun o => o.id) = [1] ∧
     c9s2.feed.map (fun m => (m.kind, m.oid)) =
       [(MsgType.N, 1), (MsgType.N, 1), (MsgType.N, 2), (MsgType.R, 2)] ∧
     c9s3.asks.map (fun o => o.id) = [1, 3]) := by
  constructor
  · intro s side limit_price quantity owner now ts slips
    unfold process_order
    dsimp only
    split_ifs with hcirc
    · cases htr : s.circuit_trigger_time with
      | none => rfl
      | some t =>
        dsimp only
        split_ifs with hage
        · rfl
        · exact processAfterCircuit_nextOrderId _ _ _ _ _ _ _
    · exact processAfterCircuit_nextOrderId _ _ _ _ _ _ _
  · refine ⟨?_, ?_, ?_⟩ <;>
      norm_num [c9s3, c9s2, c1s1, process_order, processAfterCircuit,
        matchSell, matchSellFuel, fillStepSell, matchBuy, matchBuyFuel,
        fillStepBuy, clampPrice, terLow, terHigh, send_order, send_rejection,
        send_trade, emit, add_existing_order, add_to_book, bestAskPrice,
        bestBidPrice, enforce_tick, roundHalfEven, Sim.init, INITIAL_PRICE,
        MAX_DAILY_MOVE_PERCENT, TER_PERCENT, CIRCUIT_BREAKER_DURATION,
        BAND_EXPANSION_INCREMENT]

/-- The accept path of the pipeline with a residual: the feed gains the
ingress `N`, one `T` per fill, and a closing `N` re-broadcasting the
residual's id and quantity. -/
theorem processAfterCircuit_residual_feed (s : Sim) (incoming : Order)
    (side : Side) (limit_price : ℚ) (quantity : ℤ) (now : ℚ) (slips : List ℚ)
    (r : Order)
    (hres : (processAfterCircuit s incoming side limit_price quantity now
      slips).2 = some r) :
    ∃ m1 trades m2,
      (processAfterCircuit s incoming side limit_price quantity now
        slips).1.feed = s.feed ++ (m1 :: (trades ++ [m2])) ∧
      m1.kind = MsgType.N ∧ m1.oid = r.id ∧
      (∀ m ∈ trades, m.kind = MsgType.T) ∧
      m2.kind = MsgType.N ∧ m2.oid = r.id ∧ m2.qty = r.quantity := by
  by_cases hter : clampPrice s limit_price < terLow s ∨
      clampPrice s limit_price > terHigh s
  · rw [processAfterCircuit_ter_reject _ _ _ _ _ _ _ hter] at hres
    exact absurd hres (by simp)
  · obtain ⟨trades, hkinds, hcases⟩ :=
      processAfterCircuit_accept_spec s incoming side limit_price quantity now
        slips hter
    rcases hcases with ⟨hnone, hfeed, hsum⟩ |
        ⟨r0, m2, hsome, hid, hsde, hp, hts, how, hpos, hsum, hm2k, hm2o, hm2q, hfeed⟩
    · rw [hres] at hnone
      exact absurd hnone (by simp)
    · rw [hres] at hsome
      obtain rfl : r = r0 := by simpa using hsome
      refine ⟨_, trades, m2, hfeed, rfl, hid.symm, hkinds, hm2k, ?_, hm2q⟩
      rw [hm2o, hid]

/-- C10, confirmed.  Whenever a submit returns a residual, the residual is
re-inserted through `add_existing_order`, which broadcasts a second
New-order record with the same order id: the submit's feed output is the
ingress `N`, one `T` per fill, then a second `N` carrying the residual's
id and its residual quantity — a consumer sees two `N` records for one id
within a single submit. -/
theorem c10_residual_second_new (s : Sim) (side : Side) (limit_price : ℚ)
    (quantity : ℤ) (owner : Option ℕ) (now : ℚ) (ts : ℕ) (slips : List ℚ)
    (r : Order)
    (hres : (process_order s side limit_price quantity owner now ts slips).2 =
      some r) :
    ∃ m1 trades m2,
      (process_order s side limit_price quantity owner now ts slips).1.feed =
        s.feed ++ (m1 :: (trades ++ [m2])) ∧
      m1.kind = MsgType.N ∧ m1.oid = r.id ∧
      (∀ m ∈ trades, m.kind = MsgType.T) ∧
      m2.kind = MsgType.N ∧ m2.oid = r.id ∧ m2.qty = r.quantity := by
  unfold process_order at hres ⊢
  dsimp only at hres ⊢
  split_ifs at hres ⊢ with hcirc
  · cases htr : s.circuit_trigger_time with
    | none =>
      rw [htr] at hres
      dsimp only at hres
      exact absurd hres (by simp)
    | some t =>
      rw [htr] at hres
      dsimp only at hres ⊢
      split_ifs at hres ⊢ with hage
      obtain ⟨m1, trades, m2, hfeed, h1, h2, h3, h4, h5, h6⟩ :=
        processAfterCircuit_residual_feed _ _ _ _ _ _ _ r hres
      exact ⟨m1, trades, m2, hfeed, h1, h2, h3, h4, h5, h6⟩
  · obtain ⟨m1, trades, m2, hfeed, h1, h2, h3, h4, h5, h6⟩ :=
      processAfterCircuit_residual_feed _ _ _ _ _ _ _ r hres
    exact ⟨m1, trades, m2, hfeed, h1, h2, h3, h4, h5, h6⟩

/-- Witness for `c10_residual_second_new`: the partially filled buy of 2
against the single resting ask of 1 in `c1s1` returns a residual of
quantity 1 (id 2), and its feed output is `N`(id 2), `T`, `N`(id 2,
qty 1). -/
theorem c10_witness :
    ∃ m1 trades m2,
      (process_order c1s1 .B 700 2 none 0 7 [0]).1.feed =
        c1s1.feed ++ (m1 :: (trades ++ [m2])) ∧
      m1.kind = MsgType.N ∧ m1.oid = 2 ∧
      (∀ m ∈ trades, m.kind = MsgType.T) ∧
      m2.kind = MsgType.N ∧ m2.oid = 2 ∧ m2.qty = 1 :=
  c10_residual_second_new c1s1 .B 700 2 none 0 7 [0]
    ⟨2, Side.B, 700, 1, 7, none, true⟩
    (by norm_num [c1s1, process_order, processAfterCircuit, matchSell,
      matchSellFuel, fillStepSell, matchBuy, matchBuyFuel, fillStepBuy,
      clampPrice, terLow, terHigh, send_order, send_rejection, send_trade,
      emit, add_existing_order, add_to_book, remove_order, removeFirstById,
      updateHeadAtPrice, lookupById, bestAskPrice, bestBidPrice, enforce_tick,
      roundHalfEven, trigger_circuit_breaker, expand_daily_band, Sim.init,
      INITIAL_PRICE, MAX_DAILY_MOVE_PERCENT, TER_PERCENT,
      CIRCUIT_BREAKER_DURATION, BAND_EXPANSION_INCREMENT, List.find?])

end Exchange
